import Mathlib

/-!  Verification of the real-time collaboration core of the Advanced UI
Workflow backend.

The definitions below are a shallow embedding of
`backend/app/core/websocket_manager.py` (class `ConnectionManager`) and of
the per-message dispatch of `backend/app/api/websockets.py`
(`websocket_endpoint`).

Modelling conventions:
* WebSocket handles are natural numbers (`WS`); `await ws.send_text(...)`
  is recorded as an event `(ws, message)` in an output trace.  A failure
  oracle `fails : WS → Bool` says which sockets raise on `send_text`
  (the `except` branch of `send_personal_message`).
* Python dicts are association lists (`alistGet` / `alistSet` / `alistDel`)
  with Python's insertion-order update semantics; Python sets are
  duplicate-free lists in insertion order (`setAdd` / `setDiscard`).
* JSON values are `JVal`; opaque client payloads are `JVal.arb`.
  `datetime.utcnow()` is a `Nat` supplied by the caller (`now`); its
  `isoformat()` is modelled as `toString now`.
* The `async` methods are mutually recursive in the source
  (`send_personal_message` → `disconnect` → `leave_project_room` →
  `broadcast_to_project` → `send_personal_message`); they are embedded
  with a fuel parameter, returning `none` on fuel exhaustion.
* CPython raises `RuntimeError: Set changed size during iteration` when a
  set mutates while a `for` statement iterates it; `broadcast_to_project`
  iterates `self.project_rooms[project_id]` live, so the embedding's
  broadcast loop carries the iterator's recorded size and signals an
  error flag (the `Bool` in the result) when the room's current size
  differs at a `next()` step, exactly as the CPython set iterator does.
  An uncaught exception propagates: each caller either re-raises (the
  manager methods have no handlers) or, in the endpoint's read loop,
  is caught by its `except Exception` and answered with an `error` reply.
* The single mutation Python performs on a caller-supplied message dict is
  `message["stored_at"] = ...` in `store_offline_message`; since the same
  dict object is shared by every delivery of one broadcast, the broadcast
  loop threads the (possibly updated) message value through its
  iterations.
-/

/-- JSON-like values exchanged over the socket.  `arb k` stands for an
opaque client-supplied subtree (e.g. cursor coordinates) identified by a
tag; the core never inspects those. -/
inductive JVal where
  | s (v : String)
  | null
  | arb (k : Nat)
  | obj (kvs : List (String × JVal))
deriving Repr

/-- A transport-level WebSocket handle. -/
abbrev WS := Nat

/-- A JSON object: a Python dict from field names to values. -/
abbrev Msg := List (String × JVal)

/-- Python dict lookup `m.get(k)` / `m[k]` on an association list. -/
def alistGet {κ β : Type} [DecidableEq κ] : List (κ × β) → κ → Option β
  | [], _ => none
  | (k', v) :: rest, k => if k' = k then some v else alistGet rest k

/-- Python dict assignment `m[k] = v`: replaces in place when the key is
present (keeping its position), appends otherwise. -/
def alistSet {κ β : Type} [DecidableEq κ] : List (κ × β) → κ → β → List (κ × β)
  | [], k, v => [(k, v)]
  | (k', v') :: rest, k, v =>
    if k' = k then (k, v) :: rest else (k', v') :: alistSet rest k v

/-- Python `del m[k]`. -/
def alistDel {κ β : Type} [DecidableEq κ] : List (κ × β) → κ → List (κ × β)
  | [], _ => []
  | (k', v') :: rest, k =>
    if k' = k then alistDel rest k else (k', v') :: alistDel rest k

/-- Python `k in m`. -/
def alistMem {κ β : Type} [DecidableEq κ] (m : List (κ × β)) (k : κ) : Bool :=
  (alistGet m k).isSome

/-- Python `s.add(a)` on a set kept as a duplicate-free insertion-ordered
list. -/
def setAdd {α : Type} [DecidableEq α] (s : List α) (a : α) : List α :=
  if a ∈ s then s else s ++ [a]

/-- Python `s.discard(a)`. -/
def setDiscard {α : Type} [DecidableEq α] : List α → α → List α
  | [], _ => []
  | x :: rest, a => if x = a then setDiscard rest a else x :: setDiscard rest a

/-- `self.connection_metadata[websocket]`: the dict stored per connection
by `ConnectionManager.connect`. -/
structure ConnMeta where
  user_id : String
  project_id : Option String
  connected_at : Nat
  last_activity : Nat
deriving Repr, DecidableEq

/-- The four registries of `ConnectionManager.__init__`. -/
structure ManagerState where
  active_connections : List (String × List WS)
  project_rooms : List (String × List String)
  connection_metadata : List (WS × ConnMeta)
  offline_messages : List (String × List Msg)
deriving Repr

/-- A successful `send_text` on a socket, with the message it carried. -/
abbrev Event := WS × Msg

/-- Result of one (possibly re-entrant) manager call: `none` on fuel
exhaustion, otherwise the new state, the trace of sends, and whether the
call terminated by raising (the set-changed-during-iteration
`RuntimeError`). -/
abbrev Res := Option (ManagerState × List Event × Bool)

/-- Python truthiness of the optional `project_id` strings the manager
tests with `if project_id:` — `None` and `""` are falsy. -/
def truthyS : Option String → Bool
  | none => false
  | some s => s ≠ ""

/-- The `user_joined` notification built in `join_project_room`. -/
def userJoinedMsg (uid : String) (now : Nat) : Msg :=
  [("type", .s "user_joined"), ("user_id", .s uid), ("timestamp", .s (toString now))]

/-- The `user_left` notification built in `leave_project_room`. -/
def userLeftMsg (uid : String) (now : Nat) : Msg :=
  [("type", .s "user_left"), ("user_id", .s uid), ("timestamp", .s (toString now))]

/-- The envelope built by `broadcast_cursor_position`. -/
def cursorMsg (pid : Option String) (uid : String) (cd : JVal) (now : Nat) : Msg :=
  [("type", .s "cursor_update"),
   ("project_id", match pid with | some p => .s p | none => .null),
   ("user_id", .s uid), ("cursor_data", cd), ("timestamp", .s (toString now))]

/-- The envelope built by `broadcast_wireframe_update`. -/
def wireframeMsg (pid : Option String) (wd : JVal) (uid : String) (now : Nat) : Msg :=
  [("type", .s "wireframe_update"),
   ("project_id", match pid with | some p => .s p | none => .null),
   ("wireframe_data", wd), ("updated_by", .s uid), ("timestamp", .s (toString now))]

/-- The wrapper built by `send_offline_messages` around a stored message. -/
def offlineWrap (m : Msg) : Msg :=
  [("type", .s "offline_message"), ("original_message", .obj m)]

/-- The `pong` reply of the endpoint's `ping` branch, echoing
`message.get("timestamp")` (JSON `null` when absent). -/
def pongMsg (ts : Option JVal) : Msg :=
  [("type", .s "pong"), ("timestamp", ts.getD .null)]

/-- An `error` reply of the endpoint. -/
def errorMsg (text : String) : Msg :=
  [("type", .s "error"), ("message", .s text)]

/-- The guard of `if exclude_user and user_id == exclude_user: continue`
in `broadcast_to_project` (Python truthiness: a `None` or empty-string
`exclude_user` never skips anyone). -/
def skipB (exclude : Option String) (uid : String) : Bool :=
  match exclude with
  | some e => e ≠ "" ∧ uid = e
  | none => false

/-- `ConnectionManager.store_offline_message`: stamp `stored_at` into the
message (mutating the shared dict, hence the message is also returned),
append it to the user's queue, and truncate the queue to its last 50
entries when it exceeds 50. -/
def store_offline_message (now : Nat) (st : ManagerState) (uid : String) (msg : Msg) :
    ManagerState × Msg :=
  let q := (alistGet st.offline_messages uid).getD []
  let msg' := alistSet msg "stored_at" (.s (toString now))
  let q1 := q ++ [msg']
  let q2 := if q1.length > 50 then q1.drop (q1.length - 50) else q1
  ({ st with offline_messages := alistSet st.offline_messages uid q2 }, msg')

/-- The per-connection loop of `send_personal_message`: try to send on
each socket of the user; on success update that socket's
`last_activity`, on failure collect the socket into `disconnected`. -/
def sendLoop (fails : WS → Bool) (now : Nat) (msg : Msg) (st : ManagerState) :
    List WS → ManagerState × List Event × List WS
  | [] => (st, [], [])
  | ws :: rest =>
    if fails ws then
      let r := sendLoop fails now msg st rest
      (r.1, r.2.1, ws :: r.2.2)
    else
      let st1 :=
        match alistGet st.connection_metadata ws with
        | some m =>
          { st with connection_metadata :=
              alistSet st.connection_metadata ws { m with last_activity := now } }
        | none => st
      let r := sendLoop fails now msg st1 rest
      (r.1, (ws, msg) :: r.2.1, r.2.2)

mutual

/-- `ConnectionManager.disconnect`: look up the connection's metadata (a
miss is a silent no-op), remove the socket from the user's connection
set (deleting the entry when it empties), leave the metadata's project
room when that field is truthy, and finally delete the metadata entry.
An exception escaping the room leave skips that final deletion. -/
def disconnect : Nat → (WS → Bool) → Nat → ManagerState → WS → Res
  | 0, _, _, _, _ => none
  | fuel + 1, fails, now, st, ws =>
    match alistGet st.connection_metadata ws with
    | none => some (st, [], false)
    | some meta =>
      let uid := meta.user_id
      let st1 :=
        match alistGet st.active_connections uid with
        | none => st
        | some conns =>
          let conns' := setDiscard conns ws
          if conns' = [] then
            { st with active_connections := alistDel st.active_connections uid }
          else
            { st with active_connections := alistSet st.active_connections uid conns' }
      match meta.project_id with
      | some p =>
        if p = "" then
          some ({ st1 with connection_metadata := alistDel st1.connection_metadata ws },
                [], false)
        else
          match leave_project_room fuel fails now st1 uid p with
          | none => none
          | some (st2, evs, err) =>
            if err then some (st2, evs, true)
            else
              some ({ st2 with connection_metadata := alistDel st2.connection_metadata ws },
                    evs, false)
      | none =>
        some ({ st1 with connection_metadata := alistDel st1.connection_metadata ws },
              [], false)
termination_by structural fuel => fuel

/-- `ConnectionManager.leave_project_room`: discard the user from the
room; delete the room when it empties, otherwise notify the remaining
members with `user_left` (excluding the leaver). -/
def leave_project_room : Nat → (WS → Bool) → Nat → ManagerState → String → String → Res
  | 0, _, _, _, _, _ => none
  | fuel + 1, fails, now, st, uid, pid =>
    match alistGet st.project_rooms pid with
    | none => some (st, [], false)
    | some members =>
      let members' := setDiscard members uid
      if members' = [] then
        some ({ st with project_rooms := alistDel st.project_rooms pid }, [], false)
      else
        let st1 := { st with project_rooms := alistSet st.project_rooms pid members' }
        broadcast_to_project fuel fails now st1 (some pid) (userLeftMsg uid now) (some uid)
termination_by structural fuel => fuel

/-- `ConnectionManager.broadcast_to_project`: look up the room (absent —
including a `None` project id — is a no-op) and iterate its member set,
delivering to everyone but `exclude_user`.  The iteration is over the
live set; its CPython iterator records the set's size. -/
def broadcast_to_project :
    Nat → (WS → Bool) → Nat → ManagerState → Option String → Msg → Option String → Res
  | 0, _, _, _, _, _, _ => none
  | fuel + 1, fails, now, st, pid?, msg, exclude =>
    match pid? with
    | none => some (st, [], false)
    | some pid =>
      match alistGet st.project_rooms pid with
      | none => some (st, [], false)
      | some members =>
        broadcastLoop fuel fails now st pid msg exclude members members.length
termination_by structural fuel => fuel

/-- The body of `broadcast_to_project`'s `for user_id in
self.project_rooms[project_id]` loop.  At every `next()` the CPython set
iterator compares the set's current size with the size it recorded at
creation (`snapSize`) and raises `RuntimeError` on a difference; the
member skip mirrors `if exclude_user and user_id == exclude_user`
(Python truthiness: an empty-string `exclude_user` never skips). -/
def broadcastLoop :
    Nat → (WS → Bool) → Nat → ManagerState → String → Msg → Option String →
    List String → Nat → Res
  | 0, _, _, _, _, _, _, _, _ => none
  | fuel + 1, fails, now, st, pid, msg, exclude, rest, snapSize =>
    if ((alistGet st.project_rooms pid).getD []).length ≠ snapSize then
      some (st, [], true)
    else
      match rest with
      | [] => some (st, [], false)
      | uid :: rest' =>
        if skipB exclude uid then
          broadcastLoop fuel fails now st pid msg exclude rest' snapSize
        else
          match send_personal_message fuel fails now st uid msg with
          | none => none
          | some (st1, msg1, evs, err) =>
            if err then some (st1, evs, true)
            else
              match broadcastLoop fuel fails now st1 pid msg1 exclude rest' snapSize with
              | none => none
              | some (st2, evs2, err2) => some (st2, evs ++ evs2, err2)
termination_by structural fuel => fuel

/-- `ConnectionManager.send_personal_message`: when the user is online,
send on every one of their sockets (collecting the failing ones) and
then disconnect the failures; when offline, store the message in the
offline queue.  The possibly `stored_at`-stamped message is returned
along with the state, trace and raised flag. -/
def send_personal_message :
    Nat → (WS → Bool) → Nat → ManagerState → String → Msg →
    Option (ManagerState × Msg × List Event × Bool)
  | 0, _, _, _, _, _ => none
  | fuel + 1, fails, now, st, uid, msg =>
    match alistGet st.active_connections uid with
    | some conns =>
      let r := sendLoop fails now msg st conns
      match disconnectLoop fuel fails now r.1 r.2.2 with
      | none => none
      | some (st2, evs2, err) => some (st2, msg, r.2.1 ++ evs2, err)
    | none =>
      let r := store_offline_message now st uid msg
      some (r.1, r.2, [], false)
termination_by structural fuel => fuel

/-- The `for websocket in disconnected: await self.disconnect(websocket)`
cleanup loop of `send_personal_message`. -/
def disconnectLoop : Nat → (WS → Bool) → Nat → ManagerState → List WS → Res
  | _, _, _, st, [] => some (st, [], false)
  | 0, _, _, _, _ :: _ => none
  | fuel + 1, fails, now, st, ws :: rest =>
    match disconnect fuel fails now st ws with
    | none => none
    | some (st1, evs, err) =>
      if err then some (st1, evs, true)
      else
        match disconnectLoop fuel fails now st1 rest with
        | none => none
        | some (st2, evs2, err2) => some (st2, evs ++ evs2, err2)
termination_by structural fuel => fuel

end

/-- `ConnectionManager.join_project_room`: create the room on first use,
add the user to its member set, and notify the other members with
`user_joined` (excluding the joiner).  The source removes the user from
no other room. -/
def join_project_room : Nat → (WS → Bool) → Nat → ManagerState → String → String → Res
  | 0, _, _, _, _, _ => none
  | fuel + 1, fails, now, st, uid, pid =>
    let members := (alistGet st.project_rooms pid).getD []
    let st1 := { st with project_rooms := alistSet st.project_rooms pid (setAdd members uid) }
    broadcast_to_project fuel fails now st1 (some pid) (userJoinedMsg uid now) (some uid)

/-- `ConnectionManager.broadcast_cursor_position`. -/
def broadcast_cursor_position :
    Nat → (WS → Bool) → Nat → ManagerState → Option String → String → JVal → Res
  | 0, _, _, _, _, _, _ => none
  | fuel + 1, fails, now, st, pid?, uid, cd =>
    broadcast_to_project fuel fails now st pid? (cursorMsg pid? uid cd now) (some uid)

/-- `ConnectionManager.broadcast_wireframe_update`. -/
def broadcast_wireframe_update :
    Nat → (WS → Bool) → Nat → ManagerState → Option String → JVal → String → Res
  | 0, _, _, _, _, _, _ => none
  | fuel + 1, fails, now, st, pid?, wd, uid =>
    broadcast_to_project fuel fails now st pid? (wireframeMsg pid? wd uid now) (some uid)

/-- The `for message in messages` loop of `send_offline_messages`,
delivering each stored message wrapped as an `offline_message` envelope.
The embedding iterates the snapshot taken at loop entry; the source
iterates the live list, which only differs when a delivery failure
re-enqueues into it mid-flush. -/
def offlineLoop : Nat → (WS → Bool) → Nat → ManagerState → String → List Msg → Res
  | _, _, _, st, _, [] => some (st, [], false)
  | 0, _, _, _, _, _ :: _ => none
  | fuel + 1, fails, now, st, uid, m :: rest =>
    match send_personal_message fuel fails now st uid (offlineWrap m) with
    | none => none
    | some (st1, _, evs, err) =>
      if err then some (st1, evs, true)
      else
        match offlineLoop fuel fails now st1 uid rest with
        | none => none
        | some (st2, evs2, err2) => some (st2, evs ++ evs2, err2)

/-- `ConnectionManager.send_offline_messages`: deliver every queued
message wrapped as `offline_message`, then delete the queue (an
exception escaping the loop skips the deletion). -/
def send_offline_messages : Nat → (WS → Bool) → Nat → ManagerState → String → Res
  | 0, _, _, _, _ => none
  | fuel + 1, fails, now, st, uid =>
    match alistGet st.offline_messages uid with
    | none => some (st, [], false)
    | some messages =>
      match offlineLoop fuel fails now st uid messages with
      | none => none
      | some (st1, evs, err) =>
        if err then some (st1, evs, true)
        else
          some ({ st1 with offline_messages := alistDel st1.offline_messages uid },
                evs, false)

/-- `ConnectionManager.connect`: accept the socket, add it to the user's
connection set, store fresh metadata, join the project room when the
`project_id` argument is truthy, and flush the user's offline queue. -/
def connect : Nat → (WS → Bool) → Nat → ManagerState → WS → String → Option String → Res
  | 0, _, _, _, _, _, _ => none
  | fuel + 1, fails, now, st, ws, uid, pid =>
    let conns := (alistGet st.active_connections uid).getD []
    let st1 := { st with active_connections := alistSet st.active_connections uid (setAdd conns ws) }
    let st2 :=
      { st1 with connection_metadata := alistSet st1.connection_metadata ws ⟨uid, pid, now, now⟩ }
    let joined : Res :=
      match pid with
      | some p => if p = "" then some (st2, [], false) else join_project_room fuel fails now st2 uid p
      | none => some (st2, [], false)
    match joined with
    | none => none
    | some (st3, evs1, err1) =>
      if err1 then some (st3, evs1, true)
      else
        match send_offline_messages fuel fails now st3 uid with
        | none => none
        | some (st4, evs2, err2) => some (st4, evs1 ++ evs2, err2)

/-- `ConnectionManager.is_user_online`: `user_id in self.active_connections`. -/
def is_user_online (st : ManagerState) (uid : String) : Bool :=
  alistMem st.active_connections uid

/-- One inbound unit of the endpoint's read loop: either a string that
`json.loads` rejects, or a decoded JSON object. -/
inductive Inbound where
  | malformed (raw : String)
  | msg (m : Msg)

/-- Resolution of a manager call made by the endpoint's dispatch: an
exception escaping the handler is caught by the read loop's
`except Exception` and answered with an `error` reply (if that reply
itself fails to send, the exception escapes the loop and it ends). -/
def wrapDispatch (fails : WS → Bool) (ws : WS) :
    Res → Option (ManagerState × List Event × Bool)
  | none => none
  | some (st, evs, err) =>
    if err then
      if fails ws then some (st, evs, false)
      else some (st, evs ++ [(ws, errorMsg "Error processing message")], true)
    else some (st, evs, true)

/-- One iteration of `websocket_endpoint`'s read loop after `connect`:
decode the frame and dispatch on `message.get("type")`.  `pidQuery` is
the endpoint's `project_id` query parameter (the dispatch always uses
it, never the room joined later).  The final `Bool` says whether the
read loop continues.  Room ids in `join_project` / `leave_project`
payloads are modelled as JSON strings (the only shape the system sends);
with any other payload shape the comparison branches fall through
exactly like non-truthy values.  Note the dispatch chain has no `else`
branch and never touches `connection_metadata`. -/
def handleMessage :
    Nat → (WS → Bool) → Nat → ManagerState → WS → String → Option String → Inbound →
    Option (ManagerState × List Event × Bool)
  | 0, _, _, _, _, _, _, _ => none
  | fuel + 1, fails, now, st, ws, uid, pidQuery, inb =>
    match inb with
    | .malformed _ =>
      if fails ws then some (st, [], false)
      else some (st, [(ws, errorMsg "Invalid JSON format")], true)
    | .msg m =>
      match alistGet m "type" with
      | some (.s "cursor_update") =>
        wrapDispatch fails ws
          (broadcast_cursor_position fuel fails now st pidQuery uid
            ((alistGet m "cursor_data").getD (.obj [])))
      | some (.s "wireframe_update") =>
        wrapDispatch fails ws
          (broadcast_wireframe_update fuel fails now st pidQuery
            ((alistGet m "wireframe_data").getD (.obj [])) uid)
      | some (.s "join_project") =>
        match alistGet m "project_id" with
        | some (.s p) =>
          if p = "" then some (st, [], true)
          else wrapDispatch fails ws (join_project_room fuel fails now st uid p)
        | _ => some (st, [], true)
      | some (.s "leave_project") =>
        match alistGet m "project_id" with
        | some (.s p) =>
          if p = "" then some (st, [], true)
          else wrapDispatch fails ws (leave_project_room fuel fails now st uid p)
        | _ => some (st, [], true)
      | some (.s "ping") =>
        if fails ws then some (st, [], false)
        else some (st, [(ws, pongMsg (alistGet m "timestamp"))], true)
      | _ => some (st, [], true)

/-- The always-succeeding send oracle: no `send_text` raises. -/
def noFail : WS → Bool := fun _ => false

/-- Two message dicts that agree on every field other than `stored_at` —
the only field the manager ever writes into a caller-supplied message. -/
def SameExceptStored (m m' : Msg) : Prop :=
  ∀ k, k ≠ "stored_at" → alistGet m k = alistGet m' k

/-- The presence-registry invariant: no user id maps to an empty
connection set. -/
def NoEmptyAC (st : ManagerState) : Prop :=
  ∀ p ∈ st.active_connections, p.2 ≠ []

/-- The online/offline exclusivity invariant: a user with an entry in
`active_connections` has no entry in `offline_messages`. -/
def OffInv (st : ManagerState) : Prop :=
  ∀ p ∈ st.active_connections, alistMem st.offline_messages p.1 = false

/-- A Connection Registry operation: a `connect` or a `disconnect` call. -/
inductive RegOp where
  | conn (ws : WS) (uid : String) (pid : Option String)
  | disc (ws : WS)

/-- Run a sequence of Connection Registry operations, giving each call a
fresh tank of fuel. -/
def runRegOps (fuel : Nat) (fails : WS → Bool) (now : Nat) :
    ManagerState → List RegOp → Option ManagerState
  | st, [] => some st
  | st, op :: rest =>
    let step : Res :=
      match op with
      | .conn ws uid pid => connect fuel fails now st ws uid pid
      | .disc ws => disconnect fuel fails now st ws
    match step with
    | none => none
    | some (st1, _, _) => runRegOps fuel fails now st1 rest

/-- A public operation of the manager, as invoked by the endpoint or by
other services. -/
inductive PubOp where
  | conn (ws : WS) (uid : String) (pid : Option String)
  | disc (ws : WS)
  | join (uid : String) (pid : String)
  | leave (uid : String) (pid : String)
  | send (uid : String) (msg : Msg)
  | cursor (pid : Option String) (uid : String) (cd : JVal)
  | wireframe (pid : Option String) (wd : JVal) (uid : String)

/-- Run a sequence of public manager operations, giving each call a fresh
tank of fuel. -/
def runPubOps (fuel : Nat) (fails : WS → Bool) (now : Nat) :
    ManagerState → List PubOp → Option ManagerState
  | st, [] => some st
  | st, op :: rest =>
    let step : Res :=
      match op with
      | .conn ws uid pid => connect fuel fails now st ws uid pid
      | .disc ws => disconnect fuel fails now st ws
      | .join uid pid => join_project_room fuel fails now st uid pid
      | .leave uid pid => leave_project_room fuel fails now st uid pid
      | .send uid msg =>
        (send_personal_message fuel fails now st uid msg).map
          (fun r => (r.1, r.2.2.1, r.2.2.2))
      | .cursor pid uid cd => broadcast_cursor_position fuel fails now st pid uid cd
      | .wireframe pid wd uid => broadcast_wireframe_update fuel fails now st pid wd uid
    match step with
    | none => none
    | some (st1, _, _) => runPubOps fuel fails now st1 rest

/-- Repeated `store_offline_message` calls for one user (the enqueue side
of the Offline Mailbox contract). -/
def enqueueAll (now : Nat) (uid : String) : ManagerState → List Msg → ManagerState
  | st, [] => st
  | st, m :: rest => enqueueAll now uid (store_offline_message now st uid m).1 rest

/-- Keep the last 50 entries of a queue (what the truncation in
`store_offline_message` computes, on any input length). -/
def lastCap (q : List Msg) : List Msg := q.drop (q.length - 50)

/-- The initial, empty manager state (`ConnectionManager.__init__`). -/
def emptyState : ManagerState :=
  { active_connections := [], project_rooms := [], connection_metadata := [],
    offline_messages := [] }

/-- Scenario for claim C1's counterexample: user `""` alone in room `"r"`
with live socket `0`. -/
def c1State : ManagerState :=
  { active_connections := [("", [0])]
  , project_rooms := [("r", [""])]
  , connection_metadata := [(0, ⟨"", some "r", 0, 0⟩)]
  , offline_messages := [] }

/-- Scenario for claim C1's witness: sender `"a"` (socket 1), online
member `"b"` (socket 2), offline member `"c"`, all in room `"r"`. -/
def c1wState : ManagerState :=
  { active_connections := [("a", [1]), ("b", [2])]
  , project_rooms := [("r", ["a", "b", "c"])]
  , connection_metadata := [(1, ⟨"a", some "r", 0, 0⟩), (2, ⟨"b", some "r", 0, 0⟩)]
  , offline_messages := [] }

/-- The result of the C1 witness broadcast: sender `"a"` sends a
`cursor_update` into room `"r"` of `c1wState`. -/
def c1wRun : ManagerState × List Event × Bool :=
  (broadcast_cursor_position 12 noFail 7 c1wState (some "r") "a" (.arb 0)).getD
    (c1wState, [], true)

/-- Scenario for claim C3: a connection of user `"a"` (socket 10). -/
def c3State : ManagerState :=
  { active_connections := [("a", [10])]
  , project_rooms := []
  , connection_metadata := [(10, ⟨"a", none, 0, 0⟩)]
  , offline_messages := [] }

/-- Scenario for claim C4: user `"u"` (socket 1) is a member of room
`"r1"`. -/
def c4State : ManagerState :=
  { active_connections := [("u", [1])]
  , project_rooms := [("r1", ["u"])]
  , connection_metadata := [(1, ⟨"u", some "r1", 0, 0⟩)]
  , offline_messages := [] }

/-- Scenario for claim C5: user `"u"` has two live sockets `1` and `2`,
both recorded in room `"r"`, and is the room's sole member. -/
def c5State : ManagerState :=
  { active_connections := [("u", [1, 2])]
  , project_rooms := [("r", ["u"])]
  , connection_metadata := [(1, ⟨"u", some "r", 0, 0⟩), (2, ⟨"u", some "r", 0, 0⟩)]
  , offline_messages := [] }

/-- Scenario for claim C5's witness: user `"u"` with sockets `1` and `2`
and user `"v"` with socket `3`, all recorded in room `"r"` where both
users are members. -/
def c5wState : ManagerState :=
  { active_connections := [("u", [1, 2]), ("v", [3])]
  , project_rooms := [("r", ["u", "v"])]
  , connection_metadata :=
      [(1, ⟨"u", some "r", 0, 0⟩), (2, ⟨"u", some "r", 0, 0⟩), (3, ⟨"v", some "r", 0, 0⟩)]
  , offline_messages := [] }

/-- Scenario for claim C6: user `"d"` is offline with two queued
messages. -/
def c6State : ManagerState :=
  { active_connections := []
  , project_rooms := []
  , connection_metadata := []
  , offline_messages := [("d", [[("k", .arb 1)], [("k", .arb 2)]])] }

/-- Scenario for claim C8: users `"a"` (socket 10) and `"b"` (socket 11)
in room `"r"`, both sockets recorded with that room; socket 10's
transport is broken, so sending on it raises. -/
def c8State : ManagerState :=
  { active_connections := [("a", [10]), ("b", [11])]
  , project_rooms := [("r", ["a", "b"])]
  , connection_metadata := [(10, ⟨"a", some "r", 0, 0⟩), (11, ⟨"b", some "r", 0, 0⟩)]
  , offline_messages := [] }

/-- Scenario for claim C9: user `"a"` with socket 10 whose
`last_activity` is 0; the wall clock has moved on to 99. -/
def c9State : ManagerState :=
  { active_connections := [("a", [10])]
  , project_rooms := [("r", ["a"])]
  , connection_metadata := [(10, ⟨"a", some "r", 0, 0⟩)]
  , offline_messages := [] }

theorem alistGet_set_self {κ β : Type} [DecidableEq κ] (m : List (κ × β)) (k : κ) (v : β) :
    alistGet (alistSet m k v) k = some v := by
  induction m with
  | nil => simp [alistGet, alistSet]
  | cons p rest ih =>
    by_cases h : p.1 = k
    · simp [alistSet, alistGet, h]
    · simpa [alistSet, alistGet, h] using ih

theorem alistGet_set_ne {κ β : Type} [DecidableEq κ] (m : List (κ × β)) (k k' : κ) (v : β)
    (h : k ≠ k') : alistGet (alistSet m k v) k' = alistGet m k' := by
  induction m with
  | nil => simp [alistGet, alistSet, h]
  | cons p rest ih =>
    by_cases hp : p.1 = k
    · simp [alistSet, alistGet, hp, h]
    · simp only [alistSet, hp, if_false, alistGet]
      by_cases hk' : p.1 = k' <;> simp [hk', ih]

theorem alistGet_del_self {κ β : Type} [DecidableEq κ] (m : List (κ × β)) (k : κ) :
    alistGet (alistDel m k) k = none := by
  induction m with
  | nil => simp [alistGet, alistDel]
  | cons p rest ih =>
    by_cases h : p.1 = k
    · simpa [alistDel, h] using ih
    · simpa [alistDel, alistGet, h] using ih

theorem alistGet_del_ne {κ β : Type} [DecidableEq κ] (m : List (κ × β)) (k k' : κ)
    (h : k ≠ k') : alistGet (alistDel m k) k' = alistGet m k' := by
  induction m with
  | nil => simp [alistGet, alistDel]
  | cons p rest ih =>
    by_cases hp : p.1 = k
    · simp [alistDel, alistGet, hp, h, ih]
    · simp only [alistDel, hp, if_false, alistGet]
      by_cases hk' : p.1 = k' <;> simp [hk', ih]

theorem alistGet_mem {κ β : Type} [DecidableEq κ] {m : List (κ × β)} {k : κ} {v : β}
    (h : alistGet m k = some v) : (k, v) ∈ m := by
  induction m with
  | nil => simp [alistGet] at h
  | cons p rest ih =>
    obtain ⟨pk, pv⟩ := p
    by_cases hp : pk = k
    · subst hp
      simp only [alistGet, if_true] at h
      cases h
      exact List.mem_cons_self _ _
    · simp only [alistGet, hp, if_false] at h
      exact List.mem_cons_of_mem _ (ih h)

theorem alistMem_iff {κ β : Type} [DecidableEq κ] {m : List (κ × β)} {k : κ} :
    alistMem m k = true ↔ ∃ v, alistGet m k = some v := by
  unfold alistMem
  cases h : alistGet m k <;> simp [Option.isSome, h]

theorem mem_setDiscard {α : Type} [DecidableEq α] {s : List α} {a x : α} :
    x ∈ setDiscard s a ↔ x ∈ s ∧ x ≠ a := by
  induction s with
  | nil => simp [setDiscard]
  | cons y rest ih =>
    by_cases hy : y = a
    · subst hy
      simp only [setDiscard, if_true, ih, List.mem_cons]
      constructor
      · rintro ⟨hx, hne⟩; exact ⟨Or.inr hx, hne⟩
      · rintro ⟨hx | hx, hne⟩
        · exact absurd hx hne
        · exact ⟨hx, hne⟩
    · simp only [setDiscard, hy, if_false, List.mem_cons, ih]
      constructor
      · rintro (rfl | ⟨hx, hne⟩)
        · exact ⟨Or.inl rfl, hy⟩
        · exact ⟨Or.inr hx, hne⟩
      · rintro ⟨rfl | hx, hne⟩
        · exact Or.inl rfl
        · exact Or.inr ⟨hx, hne⟩

theorem setAdd_ne_nil {α : Type} [DecidableEq α] (s : List α) (a : α) : setAdd s a ≠ [] := by
  unfold setAdd
  by_cases h : a ∈ s
  · simp only [h, if_true]
    rintro rfl
    simp at h
  · simp [h]

theorem mem_setAdd {α : Type} [DecidableEq α] {s : List α} {a x : α} :
    x ∈ setAdd s a ↔ x ∈ s ∨ x = a := by
  unfold setAdd
  by_cases h : a ∈ s
  · simp only [h, if_true]
    constructor
    · exact Or.inl
    · rintro (hx | rfl) <;> assumption
  · simp [h]

theorem sendLoop_frame (fails : WS → Bool) (now : Nat) (msg : Msg) :
    ∀ (conns : List WS) (st : ManagerState),
      (sendLoop fails now msg st conns).1.active_connections = st.active_connections
      ∧ (sendLoop fails now msg st conns).1.project_rooms = st.project_rooms
      ∧ (sendLoop fails now msg st conns).1.offline_messages = st.offline_messages := by
  intro conns
  induction conns with
  | nil => intro st; simp [sendLoop]
  | cons ws rest ih =>
    intro st
    by_cases h : fails ws
    · simpa [sendLoop, h] using ih st
    · simp only [sendLoop, h, Bool.false_eq_true, if_false]
      cases hmeta : alistGet st.connection_metadata ws <;> simpa [hmeta] using ih _

theorem sendLoop_noFail (now : Nat) (msg : Msg) :
    ∀ (conns : List WS) (st : ManagerState),
      (sendLoop noFail now msg st conns).2.1 = conns.map (fun w => (w, msg))
      ∧ (sendLoop noFail now msg st conns).2.2 = [] := by
  intro conns
  induction conns with
  | nil => intro st; simp [sendLoop]
  | cons ws rest ih =>
    intro st
    simp only [sendLoop, noFail, Bool.false_eq_true, if_false, List.map]
    cases hmeta : alistGet st.connection_metadata ws <;> simpa [hmeta] using ih _

theorem sameExceptStored_refl (m : Msg) : SameExceptStored m m := fun _ _ => rfl

theorem sameExceptStored_trans {a b c : Msg} (h1 : SameExceptStored a b)
    (h2 : SameExceptStored b c) : SameExceptStored a c :=
  fun k hk => (h1 k hk).trans (h2 k hk)

theorem sameExceptStored_stamp (m : Msg) (v : JVal) :
    SameExceptStored (alistSet m "stored_at" v) m :=
  fun k hk => alistGet_set_ne m "stored_at" k v (fun he => hk he.symm)

theorem store_offline_frame (now : Nat) (st : ManagerState) (uid : String) (msg : Msg) :
    (store_offline_message now st uid msg).1.active_connections = st.active_connections
    ∧ (store_offline_message now st uid msg).1.project_rooms = st.project_rooms
    ∧ (store_offline_message now st uid msg).1.connection_metadata = st.connection_metadata := by
  simp [store_offline_message]

theorem store_offline_other (now : Nat) (st : ManagerState) (uid : String) (msg : Msg)
    (v : String) (hv : v ≠ uid) :
    alistGet (store_offline_message now st uid msg).1.offline_messages v
      = alistGet st.offline_messages v := by
  simp only [store_offline_message]
  exact alistGet_set_ne _ uid v _ (fun he => hv he.symm)

theorem store_offline_queue (now : Nat) (st : ManagerState) (uid : String) (msg : Msg) :
    alistGet (store_offline_message now st uid msg).1.offline_messages uid
      = some (lastCap ((alistGet st.offline_messages uid).getD []
          ++ [alistSet msg "stored_at" (.s (toString now))])) := by
  simp only [store_offline_message, alistGet_set_self, lastCap]
  congr 1
  split
  · rfl
  · next hle =>
    have : ((alistGet st.offline_messages uid).getD []
        ++ [alistSet msg "stored_at" (.s (toString now))]).length - 50 = 0 := by omega
    rw [this, List.drop_zero]

theorem store_offline_msg (now : Nat) (st : ManagerState) (uid : String) (msg : Msg) :
    (store_offline_message now st uid msg).2 = alistSet msg "stored_at" (.s (toString now)) := rfl

theorem spm_noFail_online {fuel now : Nat} {st : ManagerState} {uid : String} {msg : Msg}
    {conns : List WS} (hc : alistGet st.active_connections uid = some conns) :
    send_personal_message (fuel + 1) noFail now st uid msg
      = some ((sendLoop noFail now msg st conns).1, msg, conns.map (fun w => (w, msg)), false) := by
  have hev := (sendLoop_noFail now msg conns st).1
  have hdis := (sendLoop_noFail now msg conns st).2
  simp only [send_personal_message, hc, hdis, disconnectLoop, hev, List.append_nil]

theorem spm_noFail_offline {fuel now : Nat} {st : ManagerState} {uid : String} {msg : Msg}
    (hc : alistGet st.active_connections uid = none) :
    send_personal_message (fuel + 1) noFail now st uid msg
      = some ((store_offline_message now st uid msg).1,
              (store_offline_message now st uid msg).2, [], false) := by
  simp only [send_personal_message, hc]

theorem spm_noFail_props {fuel now : Nat} {st : ManagerState} {uid : String} {msg : Msg}
    {res : ManagerState × Msg × List Event × Bool}
    (h : send_personal_message fuel noFail now st uid msg = some res) :
    res.2.2.2 = false
    ∧ res.1.active_connections = st.active_connections
    ∧ res.1.project_rooms = st.project_rooms
    ∧ (∀ v, v ≠ uid → alistGet res.1.offline_messages v = alistGet st.offline_messages v)
    ∧ ((∃ c, alistGet st.active_connections uid = some c) →
        res.1.offline_messages = st.offline_messages ∧ res.2.1 = msg)
    ∧ SameExceptStored res.2.1 msg
    ∧ (∀ w m', (w, m') ∈ res.2.2.1 →
        m' = msg ∧ ∃ conns, alistGet st.active_connections uid = some conns ∧ w ∈ conns)
    ∧ (∀ conns, alistGet st.active_connections uid = some conns →
        ∀ w ∈ conns, (w, msg) ∈ res.2.2.1)
    ∧ (alistGet st.active_connections uid = none → res.2.2.1 = []
        ∧ alistGet res.1.offline_messages uid
            = some (lastCap ((alistGet st.offline_messages uid).getD [] ++ [res.2.1]))) := by
  match fuel with
  | 0 => simp [send_personal_message] at h
  | fuel + 1 =>
    cases hc : alistGet st.active_connections uid with
    | some conns =>
      rw [spm_noFail_online hc] at h
      cases h
      refine ⟨rfl, (sendLoop_frame noFail now msg conns st).1,
        (sendLoop_frame noFail now msg conns st).2.1, ?_, ?_, sameExceptStored_refl msg,
        ?_, ?_, ?_⟩
      · intro v _
        rw [(sendLoop_frame noFail now msg conns st).2.2]
      · intro _
        exact ⟨(sendLoop_frame noFail now msg conns st).2.2, rfl⟩
      · intro w m' hm
        simp only [List.mem_map] at hm
        obtain ⟨w', hw', heq⟩ := hm
        cases heq
        exact ⟨rfl, conns, rfl, hw'⟩
      · intro conns' hc' w hw
        cases hc'
        simp only [List.mem_map]
        exact ⟨w, hw, rfl⟩
      · intro hnone
        simp at hnone
    | none =>
      rw [spm_noFail_offline hc] at h
      cases h
      refine ⟨rfl, (store_offline_frame now st uid msg).1,
        (store_offline_frame now st uid msg).2.1,
        fun v hv => store_offline_other now st uid msg v hv, ?_, ?_, ?_, ?_, ?_⟩
      · rintro ⟨c, hcc⟩
        simp at hcc
      · rw [store_offline_msg]
        exact sameExceptStored_stamp msg _
      · intro w m' hm
        simp at hm
      · intro conns' hc' w _
        simp at hc'
      · intro _
        refine ⟨rfl, ?_⟩
        rw [store_offline_queue, store_offline_msg]

theorem broadcastLoop_noFail (now : Nat) (pid : String) (exclude : Option String) :
    ∀ (rest : List String) (fuel : Nat) (st : ManagerState) (msg : Msg)
      (res : ManagerState × List Event × Bool),
      broadcastLoop fuel noFail now st pid msg exclude rest
        (((alistGet st.project_rooms pid).getD []).length) = some res →
      res.2.2 = false
      ∧ res.1.active_connections = st.active_connections
      ∧ res.1.project_rooms = st.project_rooms
      ∧ (∀ v, (∃ c, alistGet st.active_connections v = some c) →
          alistGet res.1.offline_messages v = alistGet st.offline_messages v)
      ∧ (∀ v, v ∉ rest → alistGet res.1.offline_messages v = alistGet st.offline_messages v)
      ∧ (∀ w m', (w, m') ∈ res.2.1 → SameExceptStored m' msg
          ∧ ∃ B, B ∈ rest ∧ skipB exclude B = false
            ∧ ∃ conns, alistGet st.active_connections B = some conns ∧ w ∈ conns)
      ∧ (∀ B ∈ rest, skipB exclude B = false →
          ∀ conns, alistGet st.active_connections B = some conns →
          ∀ w ∈ conns, ∃ m', (w, m') ∈ res.2.1)
      ∧ (rest.Nodup → ∀ B ∈ rest, skipB exclude B = false →
          alistGet st.active_connections B = none →
          ∃ m', SameExceptStored m' msg
            ∧ alistGet res.1.offline_messages B
                = some (lastCap ((alistGet st.offline_messages B).getD [] ++ [m']))) := by
  intro rest
  induction rest with
  | nil =>
    intro fuel st msg res h
    match fuel with
    | 0 => simp [broadcastLoop] at h
    | fuel + 1 =>
      simp only [broadcastLoop] at h
      rw [if_neg (fun hne => hne rfl)] at h
      cases h
      exact ⟨rfl, rfl, rfl, fun v _ => rfl, fun v _ => rfl,
        fun w m' hm => absurd hm (List.not_mem_nil _),
        fun B hB => absurd hB (List.not_mem_nil _),
        fun _ B hB => absurd hB (List.not_mem_nil _)⟩
  | cons B rest' ih =>
    intro fuel st msg res h
    match fuel with
    | 0 => simp [broadcastLoop] at h
    | fuel + 1 =>
      simp only [broadcastLoop] at h
      rw [if_neg (fun hne => hne rfl)] at h
      by_cases hskip : skipB exclude B = true
      · rw [if_pos hskip] at h
        obtain ⟨ih1, ih2, ih3, ih4, ih5, ih6, ih7, ih8⟩ := ih fuel st msg res h
        refine ⟨ih1, ih2, ih3, ih4, ?_, ?_, ?_, ?_⟩
        · intro v hv
          exact ih5 v (fun hvm => hv (List.mem_cons_of_mem _ hvm))
        · intro w m' hm
          obtain ⟨hsame, B'', hB'', hsk, rest_stuff⟩ := ih6 w m' hm
          exact ⟨hsame, B'', List.mem_cons_of_mem _ hB'', hsk, rest_stuff⟩
        · intro B' hB' hsk conns hc w hw
          rcases List.mem_cons.mp hB' with rfl | hB'
          · rw [hsk] at hskip; cases hskip
          · exact ih7 B' hB' hsk conns hc w hw
        · intro hnd B' hB' hsk hnone
          rcases List.mem_cons.mp hB' with rfl | hB'
          · rw [hsk] at hskip; cases hskip
          · exact ih8 (List.Nodup.of_cons hnd) B' hB' hsk hnone
      · have hskip' : skipB exclude B = false := by
          cases hb : skipB exclude B
          · rfl
          · exact absurd hb hskip
        rw [if_neg (by rw [hskip']; simp)] at h
        rcases hspm : send_personal_message fuel noFail now st B msg with _ | ⟨st1, msg1, evs, err⟩
        · rw [hspm] at h
          simp at h
        · rw [hspm] at h
          obtain ⟨hperr, hpact, hprooms, hpoff_ne, hponline, hpsame, hpev_mem, hpev_all, hpoffq⟩ :=
            spm_noFail_props hspm
          simp only at hperr hpact hprooms hpsame
          subst hperr
          simp only [Bool.false_eq_true, if_false] at h
          rcases hloop : broadcastLoop fuel noFail now st1 pid msg1 exclude rest'
              (((alistGet st.project_rooms pid).getD []).length) with _ | res2
          · rw [hloop] at h
            simp at h
          · rw [hloop] at h
            cases h
            have hlen : ((alistGet st.project_rooms pid).getD []).length
                = ((alistGet st1.project_rooms pid).getD []).length := by rw [hprooms]
            rw [hlen] at hloop
            obtain ⟨ih1, ih2, ih3, ih4, ih5, ih6, ih7, ih8⟩ := ih fuel st1 msg1 res2 hloop
            refine ⟨ih1, by rw [ih2, hpact], by rw [ih3, hprooms], ?_, ?_, ?_, ?_, ?_⟩
            · intro v hvon
              by_cases hvB : v = B
              · subst hvB
                obtain ⟨hoffeq, _⟩ := hponline hvon
                have hvon1 : ∃ c, alistGet st1.active_connections v = some c := by
                  rw [hpact]; exact hvon
                rw [ih4 v hvon1, hoffeq]
              · have hvon1 : ∃ c, alistGet st1.active_connections v = some c := by
                  rw [hpact]; exact hvon
                rw [ih4 v hvon1, hpoff_ne v hvB]
            · intro v hv
              have hvB : v ≠ B := fun he => hv (he ▸ List.mem_cons_self _ _)
              have hv' : v ∉ rest' := fun hm => hv (List.mem_cons_of_mem _ hm)
              rw [ih5 v hv', hpoff_ne v hvB]
            · intro w m' hm
              rcases List.mem_append.mp hm with hm | hm
              · obtain ⟨rfl, conns, hc, hw⟩ := hpev_mem w m' hm
                exact ⟨sameExceptStored_refl _, B, List.mem_cons_self _ _, hskip',
                  conns, hc, hw⟩
              · obtain ⟨hsame, B'', hB'', hsk, conns, hc, hw⟩ := ih6 w m' hm
                rw [hpact] at hc
                exact ⟨sameExceptStored_trans hsame hpsame, B'',
                  List.mem_cons_of_mem _ hB'', hsk, conns, hc, hw⟩
            · intro B' hB' hsk conns hc w hw
              rcases List.mem_cons.mp hB' with rfl | hB'
              · exact ⟨msg, List.mem_append.mpr (Or.inl (hpev_all conns hc w hw))⟩
              · have hc1 : alistGet st1.active_connections B' = some conns := by
                  rw [hpact]; exact hc
                obtain ⟨m', hm'⟩ := ih7 B' hB' hsk conns hc1 w hw
                exact ⟨m', List.mem_append.mpr (Or.inr hm')⟩
            · intro hnd B' hB' hsk hnone
              have hBnotin : B ∉ rest' := (List.nodup_cons.mp hnd).1
              rcases List.mem_cons.mp hB' with rfl | hB'
              · obtain ⟨hevnil, hq⟩ := hpoffq hnone
                have hq2 := ih5 B' hBnotin
                exact ⟨msg1, hpsame, by rw [hq2, hq]⟩
              · have hB'B : B' ≠ B := fun he => hBnotin (he ▸ hB')
                have hnone1 : alistGet st1.active_connections B' = none := by
                  rw [hpact]; exact hnone
                obtain ⟨m', hsame', hq'⟩ := ih8 (List.nodup_cons.mp hnd).2 B' hB' hsk hnone1
                refine ⟨m', sameExceptStored_trans hsame' hpsame, ?_⟩
                rw [hq', hpoff_ne B' hB'B]

theorem mem_of_mem_alistDel {κ β : Type} [DecidableEq κ] {m : List (κ × β)} {k : κ}
    {p : κ × β} (h : p ∈ alistDel m k) : p ∈ m := by
  induction m with
  | nil => simp [alistDel] at h
  | cons q rest ih =>
    by_cases hq : q.1 = k
    · simp only [alistDel, hq, if_true] at h
      exact List.mem_cons_of_mem _ (ih h)
    · simp only [alistDel, hq, if_false] at h
      rcases List.mem_cons.mp h with rfl | h
      · exact List.mem_cons_self _ _
      · exact List.mem_cons_of_mem _ (ih h)

theorem mem_alistSet_cases {κ β : Type} [DecidableEq κ] {m : List (κ × β)} {k : κ} {v : β}
    {p : κ × β} (h : p ∈ alistSet m k v) : p ∈ m ∨ p = (k, v) := by
  induction m with
  | nil =>
    simp only [alistSet, List.mem_singleton] at h
    exact Or.inr h
  | cons q rest ih =>
    by_cases hq : q.1 = k
    · simp only [alistSet, hq, if_true] at h
      rcases List.mem_cons.mp h with rfl | h
      · exact Or.inr rfl
      · exact Or.inl (List.mem_cons_of_mem _ h)
    · simp only [alistSet, hq, if_false] at h
      rcases List.mem_cons.mp h with rfl | h
      · exact Or.inl (List.mem_cons_self _ _)
      · rcases ih h with h | h
        · exact Or.inl (List.mem_cons_of_mem _ h)
        · exact Or.inr h

theorem alistGet_isSome_of_mem {κ β : Type} [DecidableEq κ] {m : List (κ × β)} {k : κ} {v : β}
    (h : (k, v) ∈ m) : ∃ v', alistGet m k = some v' := by
  induction m with
  | nil => simp at h
  | cons q rest ih =>
    by_cases hq : q.1 = k
    · exact ⟨q.2, by simp [alistGet, hq]⟩
    · rcases List.mem_cons.mp h with rfl | h
      · exact absurd rfl hq
      · simpa [alistGet, hq] using ih h

theorem btp_noFail {fuel now : Nat} {st : ManagerState} {pid? : Option String} {msg : Msg}
    {exclude : Option String} {res : ManagerState × List Event × Bool}
    (h : broadcast_to_project fuel noFail now st pid? msg exclude = some res) :
    res.2.2 = false
    ∧ res.1.active_connections = st.active_connections
    ∧ res.1.project_rooms = st.project_rooms
    ∧ (∀ v, (∃ c, alistGet st.active_connections v = some c) →
        alistGet res.1.offline_messages v = alistGet st.offline_messages v) := by
  match fuel with
  | 0 => simp [broadcast_to_project] at h
  | fuel + 1 =>
    match pid? with
    | none =>
      simp only [broadcast_to_project] at h
      cases h
      exact ⟨rfl, rfl, rfl, fun v _ => rfl⟩
    | some pid =>
      cases hr : alistGet st.project_rooms pid with
      | none =>
        simp only [broadcast_to_project, hr] at h
        cases h
        exact ⟨rfl, rfl, rfl, fun v _ => rfl⟩
      | some members =>
        simp only [broadcast_to_project, hr] at h
        have hlen : members.length = ((alistGet st.project_rooms pid).getD []).length := by
          rw [hr]; rfl
        rw [hlen] at h
        obtain ⟨h1, h2, h3, h4, _⟩ := broadcastLoop_noFail now pid exclude members fuel st msg res h
        exact ⟨h1, h2, h3, h4⟩

theorem leave_noFail {fuel now : Nat} {st : ManagerState} {uid pid : String}
    {res : ManagerState × List Event × Bool}
    (h : leave_project_room fuel noFail now st uid pid = some res) :
    res.2.2 = false
    ∧ res.1.active_connections = st.active_connections
    ∧ (∀ v, (∃ c, alistGet st.active_connections v = some c) →
        alistGet res.1.offline_messages v = alistGet st.offline_messages v)
    ∧ (∀ q, q ≠ pid → alistGet res.1.project_rooms q = alistGet st.project_rooms q)
    ∧ (∀ ms, alistGet res.1.project_rooms pid = some ms → uid ∉ ms) := by
  match fuel with
  | 0 => simp [leave_project_room] at h
  | fuel + 1 =>
    cases hr : alistGet st.project_rooms pid with
    | none =>
      simp only [leave_project_room, hr] at h
      cases h
      refine ⟨rfl, rfl, fun v _ => rfl, fun q _ => rfl, ?_⟩
      intro ms hms
      rw [hr] at hms
      cases hms
    | some members =>
      by_cases hemp : setDiscard members uid = []
      · simp only [leave_project_room, hr, if_pos hemp] at h
        cases h
        refine ⟨rfl, rfl, fun v _ => rfl, ?_, ?_⟩
        · intro q hq
          exact alistGet_del_ne _ pid q (fun he => hq he.symm)
        · intro ms hms
          simp only at hms
          rw [alistGet_del_self] at hms
          cases hms
      · simp only [leave_project_room, hr, if_neg hemp] at h
        obtain ⟨h1, h2, h3, h4⟩ := btp_noFail h
        refine ⟨h1, h2, ?_, ?_, ?_⟩
        · intro v hv
          exact h4 v hv
        · intro q hq
          rw [h3]
          simp only
          exact alistGet_set_ne _ pid q _ (fun he => hq he.symm)
        · intro ms hms
          rw [h3] at hms
          simp only at hms
          rw [alistGet_set_self] at hms
          cases hms
          intro hmem
          exact (mem_setDiscard.mp hmem).2 rfl

theorem join_noFail {fuel now : Nat} {st : ManagerState} {uid pid : String}
    {res : ManagerState × List Event × Bool}
    (h : join_project_room fuel noFail now st uid pid = some res) :
    res.2.2 = false
    ∧ res.1.active_connections = st.active_connections
    ∧ (∀ v, (∃ c, alistGet st.active_connections v = some c) →
        alistGet res.1.offline_messages v = alistGet st.offline_messages v)
    ∧ res.1.project_rooms
        = alistSet st.project_rooms pid (setAdd ((alistGet st.project_rooms pid).getD []) uid) := by
  match fuel with
  | 0 => simp [join_project_room] at h
  | fuel + 1 =>
    simp only [join_project_room] at h
    obtain ⟨h1, h2, h3, h4⟩ := btp_noFail h
    exact ⟨h1, h2, fun v hv => h4 v hv, h3⟩

theorem disconnect_noFail {fuel now : Nat} {st : ManagerState} {ws : WS}
    {res : ManagerState × List Event × Bool}
    (h : disconnect fuel noFail now st ws = some res) :
    res.2.2 = false
    ∧ (∀ v c', alistGet res.1.active_connections v = some c' →
        ∃ c, alistGet st.active_connections v = some c)
    ∧ (∀ v, (∃ c', alistGet res.1.active_connections v = some c') →
        alistGet res.1.offline_messages v = alistGet st.offline_messages v)
    ∧ (NoEmptyAC st → NoEmptyAC res.1) := by
  match fuel with
  | 0 => simp [disconnect] at h
  | fuel + 1 =>
    cases hmeta : alistGet st.connection_metadata ws with
    | none =>
      simp only [disconnect, hmeta] at h
      cases h
      exact ⟨rfl, fun v c' hc' => ⟨c', hc'⟩, fun v _ => rfl, fun hne => hne⟩
    | some meta =>
      obtain ⟨muid, mpid, mca, mla⟩ := meta
      -- facts about the state after the active-connections removal, in
      -- each of its three shapes
      have hactDel : ∀ v c', alistGet (alistDel st.active_connections muid) v = some c' →
          ∃ c, alistGet st.active_connections v = some c := by
        intro v c' hc'
        by_cases hv : v = muid
        · subst hv
          rw [alistGet_del_self] at hc'
          cases hc'
        · rw [alistGet_del_ne _ _ _ (fun he => hv he.symm)] at hc'
          exact ⟨c', hc'⟩
      have hneDel : NoEmptyAC st →
          ∀ p ∈ alistDel st.active_connections muid, p.2 ≠ [] := by
        intro h0 p hp
        exact h0 p (mem_of_mem_alistDel hp)
      cases mpid with
      | none =>
        simp only [disconnect, hmeta] at h
        cases hac : alistGet st.active_connections muid with
        | none =>
          rw [hac] at h
          simp only at h
          cases h
          exact ⟨rfl, fun v c' hc' => ⟨c', hc'⟩, fun v _ => rfl, fun hne => hne⟩
        | some conns =>
          rw [hac] at h
          by_cases hemp : setDiscard conns ws = []
          · simp only [if_pos hemp] at h
            cases h
            exact ⟨rfl, hactDel, fun v _ => rfl, fun h0 => hneDel h0⟩
          · simp only [if_neg hemp] at h
            cases h
            refine ⟨rfl, ?_, fun v _ => rfl, ?_⟩
            · intro v c' hc'
              simp only at hc'
              by_cases hv : v = muid
              · subst hv
                exact ⟨conns, hac⟩
              · rw [alistGet_set_ne _ _ _ _ (fun he => hv he.symm)] at hc'
                exact ⟨c', hc'⟩
            · intro h0 p hp
              simp only at hp
              rcases mem_alistSet_cases hp with hp | hp
              · exact h0 p hp
              · rw [hp]
                exact hemp
      | some p =>
        by_cases hp0 : p = ""
        · subst hp0
          simp only [disconnect, hmeta] at h
          cases hac : alistGet st.active_connections muid with
          | none =>
            rw [hac] at h
            simp only at h
            cases h
            exact ⟨rfl, fun v c' hc' => ⟨c', hc'⟩, fun v _ => rfl, fun hne => hne⟩
          | some conns =>
            rw [hac] at h
            by_cases hemp : setDiscard conns ws = []
            · simp only [if_pos hemp] at h
              cases h
              exact ⟨rfl, hactDel, fun v _ => rfl, fun h0 => hneDel h0⟩
            · simp only [if_neg hemp] at h
              cases h
              refine ⟨rfl, ?_, fun v _ => rfl, ?_⟩
              · intro v c' hc'
                simp only at hc'
                by_cases hv : v = muid
                · subst hv
                  exact ⟨conns, hac⟩
                · rw [alistGet_set_ne _ _ _ _ (fun he => hv he.symm)] at hc'
                  exact ⟨c', hc'⟩
              · intro h0 q hq
                simp only at hq
                rcases mem_alistSet_cases hq with hq | hq
                · exact h0 q hq
                · rw [hq]
                  exact hemp
        · -- truthy project id: the leave cascade runs
          simp only [disconnect, hmeta, if_neg hp0] at h
          cases hac : alistGet st.active_connections muid with
          | none =>
            rw [hac] at h
            rcases hlv : leave_project_room fuel noFail now st muid p with _ | ⟨st2, evs, err⟩
            · rw [hlv] at h
              simp at h
            · rw [hlv] at h
              obtain ⟨hl1, hl2, hl3, _, _⟩ := leave_noFail hlv
              simp only at hl1 hl2 hl3
              subst hl1
              simp only [Bool.false_eq_true, if_false] at h
              cases h
              refine ⟨rfl, ?_, ?_, ?_⟩
              · intro v c' hc'
                simp only at hc'
                rw [hl2] at hc'
                exact ⟨c', hc'⟩
              · intro v hv
                simp only at hv ⊢
                obtain ⟨c', hc'⟩ := hv
                rw [hl2] at hc'
                exact hl3 v ⟨c', hc'⟩
              · intro h0 q hq
                simp only at hq
                rw [hl2] at hq
                exact h0 q hq
          | some conns =>
            rw [hac] at h
            by_cases hemp : setDiscard conns ws = []
            · simp only [if_pos hemp] at h
              rcases hlv : leave_project_room fuel noFail now
                  { st with active_connections := alistDel st.active_connections muid }
                  muid p with _ | ⟨st2, evs, err⟩
              · rw [hlv] at h
                simp at h
              · rw [hlv] at h
                obtain ⟨hl1, hl2, hl3, _, _⟩ := leave_noFail hlv
                simp only at hl1 hl2 hl3
                subst hl1
                simp only [Bool.false_eq_true, if_false] at h
                cases h
                refine ⟨rfl, ?_, ?_, ?_⟩
                · intro v c' hc'
                  simp only at hc'
                  rw [hl2] at hc'
                  exact hactDel v c' hc'
                · intro v hv
                  simp only at hv ⊢
                  obtain ⟨c', hc'⟩ := hv
                  rw [hl2] at hc'
                  exact hl3 v ⟨c', hc'⟩
                · intro h0 q hq
                  simp only at hq
                  rw [hl2] at hq
                  exact hneDel h0 q hq
            · simp only [if_neg hemp] at h
              rcases hlv : leave_project_room fuel noFail now
                  { st with active_connections :=
                      alistSet st.active_connections muid (setDiscard conns ws) }
                  muid p with _ | ⟨st2, evs, err⟩
              · rw [hlv] at h
                simp at h
              · rw [hlv] at h
                obtain ⟨hl1, hl2, hl3, _, _⟩ := leave_noFail hlv
                simp only at hl1 hl2 hl3
                subst hl1
                simp only [Bool.false_eq_true, if_false] at h
                cases h
                refine ⟨rfl, ?_, ?_, ?_⟩
                · intro v c' hc'
                  simp only at hc'
                  rw [hl2] at hc'
                  by_cases hv : v = muid
                  · subst hv
                    exact ⟨conns, hac⟩
                  · rw [alistGet_set_ne _ _ _ _ (fun he => hv he.symm)] at hc'
                    exact ⟨c', hc'⟩
                · intro v hv
                  simp only at hv ⊢
                  obtain ⟨c', hc'⟩ := hv
                  rw [hl2] at hc'
                  exact hl3 v ⟨c', hc'⟩
                · intro h0 q hq
                  simp only at hq
                  rw [hl2] at hq
                  rcases mem_alistSet_cases hq with hq | hq
                  · exact h0 q hq
                  · rw [hq]
                    exact hemp

theorem offlineLoop_noFail_online {uid : String} {now : Nat} :
    ∀ (msgs : List Msg) (fuel : Nat) (st : ManagerState)
      (res : ManagerState × List Event × Bool),
      offlineLoop fuel noFail now st uid msgs = some res →
      (∃ c, alistGet st.active_connections uid = some c) →
      res.2.2 = false
      ∧ res.1.active_connections = st.active_connections
      ∧ res.1.project_rooms = st.project_rooms
      ∧ res.1.offline_messages = st.offline_messages := by
  intro msgs
  induction msgs with
  | nil =>
    intro fuel st res h _
    simp only [offlineLoop] at h
    cases h
    exact ⟨rfl, rfl, rfl, rfl⟩
  | cons m rest ih =>
    intro fuel st res h hon
    match fuel with
    | 0 => simp [offlineLoop] at h
    | 1 => simp [offlineLoop, send_personal_message] at h
    | fuel + 2 =>
      obtain ⟨conns, hc⟩ := hon
      rw [offlineLoop, spm_noFail_online hc] at h
      simp only [Bool.false_eq_true, if_false] at h
      rcases hloop : offlineLoop (fuel + 1) noFail now
          (sendLoop noFail now (offlineWrap m) st conns).1 uid rest with _ | res2
      · rw [hloop] at h
        simp at h
      · rw [hloop] at h
        cases h
        have hfr := sendLoop_frame noFail now (offlineWrap m) conns st
        obtain ⟨ih1, ih2, ih3, ih4⟩ := ih (fuel + 1) _ res2 hloop ⟨conns, by rw [hfr.1]; exact hc⟩
        exact ⟨ih1, by rw [ih2, hfr.1], by rw [ih3, hfr.2.1], by rw [ih4, hfr.2.2]⟩

theorem offlineLoop_noFail_single {uid : String} {ws0 : WS} {now : Nat} :
    ∀ (msgs : List Msg) (fuel : Nat) (st : ManagerState)
      (res : ManagerState × List Event × Bool),
      offlineLoop fuel noFail now st uid msgs = some res →
      alistGet st.active_connections uid = some [ws0] →
      res.2.1 = msgs.map (fun m => (ws0, offlineWrap m)) := by
  intro msgs
  induction msgs with
  | nil =>
    intro fuel st res h _
    simp only [offlineLoop] at h
    cases h
    rfl
  | cons m rest ih =>
    intro fuel st res h hc
    match fuel with
    | 0 => simp [offlineLoop] at h
    | 1 => simp [offlineLoop, send_personal_message] at h
    | fuel + 2 =>
      rw [offlineLoop, spm_noFail_online hc] at h
      simp only [Bool.false_eq_true, if_false] at h
      rcases hloop : offlineLoop (fuel + 1) noFail now
          (sendLoop noFail now (offlineWrap m) st [ws0]).1 uid rest with _ | res2
      · rw [hloop] at h
        simp at h
      · rw [hloop] at h
        cases h
        have hfr := sendLoop_frame noFail now (offlineWrap m) [ws0] st
        have := ih (fuel + 1) _ res2 hloop (by rw [hfr.1]; exact hc)
        simp only [List.map_cons, List.map_nil]
        rw [this]
        rfl

theorem send_offline_noFail_online {fuel now : Nat} {st : ManagerState} {uid : String}
    {res : ManagerState × List Event × Bool}
    (h : send_offline_messages fuel noFail now st uid = some res)
    (hon : ∃ c, alistGet st.active_connections uid = some c) :
    res.2.2 = false
    ∧ res.1.active_connections = st.active_connections
    ∧ res.1.project_rooms = st.project_rooms
    ∧ alistGet res.1.offline_messages uid = none
    ∧ (∀ v, v ≠ uid → alistGet res.1.offline_messages v = alistGet st.offline_messages v) := by
  match fuel with
  | 0 => simp [send_offline_messages] at h
  | fuel + 1 =>
    cases hq : alistGet st.offline_messages uid with
    | none =>
      simp only [send_offline_messages, hq] at h
      cases h
      exact ⟨rfl, rfl, rfl, hq, fun v _ => rfl⟩
    | some msgs =>
      simp only [send_offline_messages, hq] at h
      rcases hloop : offlineLoop fuel noFail now st uid msgs with _ | ⟨st1, evs1, err1⟩
      · rw [hloop] at h
        simp at h
      · rw [hloop] at h
        obtain ⟨hl1, hl2, hl3, hl4⟩ := offlineLoop_noFail_online msgs fuel st _ hloop hon
        simp only at hl1 hl2 hl3 hl4
        subst hl1
        simp only [Bool.false_eq_true, if_false] at h
        cases h
        refine ⟨rfl, hl2, hl3, ?_, ?_⟩
        · simp only
          rw [hl4, alistGet_del_self]
        · intro v hv
          simp only
          rw [hl4, alistGet_del_ne _ _ _ (fun he => hv he.symm)]

theorem send_offline_noFail_single {fuel now : Nat} {st : ManagerState} {uid : String}
    {ws0 : WS} {res : ManagerState × List Event × Bool}
    (h : send_offline_messages fuel noFail now st uid = some res)
    (hc : alistGet st.active_connections uid = some [ws0]) :
    res.2.1 = ((alistGet st.offline_messages uid).getD []).map (fun m => (ws0, offlineWrap m)) := by
  match fuel with
  | 0 => simp [send_offline_messages] at h
  | fuel + 1 =>
    cases hq : alistGet st.offline_messages uid with
    | none =>
      simp only [send_offline_messages, hq] at h
      cases h
      rfl
    | some msgs =>
      simp only [send_offline_messages, hq] at h
      rcases hloop : offlineLoop fuel noFail now st uid msgs with _ | ⟨st1, evs1, err1⟩
      · rw [hloop] at h
        simp at h
      · rw [hloop] at h
        obtain ⟨hl1, _, _, _⟩ := offlineLoop_noFail_online msgs fuel st _ hloop ⟨_, hc⟩
        simp only at hl1
        subst hl1
        simp only [Bool.false_eq_true, if_false] at h
        cases h
        simp only [Option.getD_some]
        exact offlineLoop_noFail_single msgs fuel st _ hloop hc

theorem connect_noFail {fuel now : Nat} {st : ManagerState} {ws : WS} {uid : String}
    {pid : Option String} {res : ManagerState × List Event × Bool}
    (h : connect fuel noFail now st ws uid pid = some res) :
    res.2.2 = false
    ∧ res.1.active_connections
        = alistSet st.active_connections uid
            (setAdd ((alistGet st.active_connections uid).getD []) ws)
    ∧ alistGet res.1.offline_messages uid = none
    ∧ (∀ v, v ≠ uid → (∃ c, alistGet st.active_connections v = some c) →
        alistGet res.1.offline_messages v = alistGet st.offline_messages v) := by
  match fuel with
  | 0 => simp [connect] at h
  | fuel + 1 =>
    -- the state right after registration and metadata update
    have hst2get : alistGet
        (alistSet st.active_connections uid
          (setAdd ((alistGet st.active_connections uid).getD []) ws)) uid
        = some (setAdd ((alistGet st.active_connections uid).getD []) ws) :=
      alistGet_set_self _ _ _
    have hst2other : ∀ v, v ≠ uid →
        alistGet (alistSet st.active_connections uid
          (setAdd ((alistGet st.active_connections uid).getD []) ws)) v
        = alistGet st.active_connections v := by
      intro v hv
      exact alistGet_set_ne _ _ _ _ (fun he => hv he.symm)
    match pid with
    | none =>
      simp only [connect] at h
      rcases hso : send_offline_messages fuel noFail now
          { st with
            active_connections := alistSet st.active_connections uid
              (setAdd ((alistGet st.active_connections uid).getD []) ws),
            connection_metadata := alistSet st.connection_metadata ws ⟨uid, none, now, now⟩ }
          uid with _ | res4
      · rw [hso] at h
        simp at h
      · rw [hso] at h
        obtain ⟨hs1, hs2, _, hs4, hs5⟩ := send_offline_noFail_online hso ⟨_, hst2get⟩
        cases h
        refine ⟨hs1, by rw [hs2], hs4, ?_⟩
        · intro v hv _
          rw [hs5 v hv]
    | some p =>
      by_cases hp0 : p = ""
      · subst hp0
        simp only [connect, if_pos] at h
        rcases hso : send_offline_messages fuel noFail now
            { st with
              active_connections := alistSet st.active_connections uid
                (setAdd ((alistGet st.active_connections uid).getD []) ws),
              connection_metadata := alistSet st.connection_metadata ws ⟨uid, some "", now, now⟩ }
            uid with _ | res4
        · rw [hso] at h
          simp at h
        · rw [hso] at h
          obtain ⟨hs1, hs2, _, hs4, hs5⟩ := send_offline_noFail_online hso ⟨_, hst2get⟩
          cases h
          refine ⟨hs1, by rw [hs2], hs4, ?_⟩
          · intro v hv _
            rw [hs5 v hv]
      · simp only [connect, if_neg hp0] at h
        rcases hjn : join_project_room fuel noFail now
            { st with
              active_connections := alistSet st.active_connections uid
                (setAdd ((alistGet st.active_connections uid).getD []) ws),
              connection_metadata := alistSet st.connection_metadata ws ⟨uid, some p, now, now⟩ }
            uid p with _ | ⟨st3, evs1, err1⟩
        · rw [hjn] at h
          simp at h
        · rw [hjn] at h
          obtain ⟨hj1, hj2, hj3, _⟩ := join_noFail hjn
          simp only at hj1 hj2 hj3
          subst hj1
          simp only [Bool.false_eq_true, if_false] at h
          rcases hso : send_offline_messages fuel noFail now st3 uid with _ | res4
          · rw [hso] at h
            simp at h
          · rw [hso] at h
            obtain ⟨hs1, hs2, _, hs4, hs5⟩ := send_offline_noFail_online hso
              ⟨_, by rw [hj2]; exact hst2get⟩
            cases h
            refine ⟨hs1, by rw [hs2, hj2], hs4, ?_⟩
            · intro v hv hon
              rw [hs5 v hv, hj3 v ⟨_, by rw [hst2other v hv]; exact hon.choose_spec⟩]

theorem lastCap_length_le (q : List Msg) : (lastCap q).length ≤ 50 := by
  unfold lastCap
  rw [List.length_drop]
  omega

theorem lastCap_of_le {q : List Msg} (h : q.length ≤ 50) : lastCap q = q := by
  unfold lastCap
  have h0 : q.length - 50 = 0 := by omega
  rw [h0, List.drop_zero]

theorem lastCap_append (xs ys : List Msg) : lastCap (lastCap xs ++ ys) = lastCap (xs ++ ys) := by
  by_cases hle : xs.length ≤ 50
  · rw [lastCap_of_le hle]
  · unfold lastCap
    have hxs : (xs.drop (xs.length - 50)).length = 50 := by rw [List.length_drop]; omega
    rw [List.length_append, List.length_append, hxs]
    by_cases hys : ys.length ≤ 50
    · have h1 : 50 + ys.length - 50 = ys.length := by omega
      have h2 : xs.length + ys.length - 50 = (xs.length - 50) + ys.length := by omega
      rw [h1, h2]
      rw [List.drop_append_of_le_length (by omega : ys.length ≤ (xs.drop (xs.length - 50)).length),
        List.drop_drop,
        List.drop_append_of_le_length (by omega : (xs.length - 50) + ys.length ≤ xs.length)]
    · have h1 : 50 + ys.length - 50 = ys.length := by omega
      rw [h1]
      have hA : ys.length = (xs.drop (xs.length - 50)).length + (ys.length - 50) := by
        rw [hxs]; omega
      rw [hA, List.drop_append]
      have h2 : xs.length + ((xs.drop (xs.length - 50)).length + (ys.length - 50)) - 50
          = xs.length + (ys.length - 50) := by rw [hxs]; omega
      rw [h2, List.drop_append]

theorem enqueueAll_queue (now : Nat) (uid : String) :
    ∀ (msgs : List Msg) (st : ManagerState) (q : List Msg),
      alistGet st.offline_messages uid = some q → q.length ≤ 50 →
      alistGet (enqueueAll now uid st msgs).offline_messages uid
        = some (lastCap (q ++ msgs.map (fun m => alistSet m "stored_at" (.s (toString now))))) := by
  intro msgs
  induction msgs with
  | nil =>
    intro st q hq hle
    simp only [enqueueAll, List.map_nil, List.append_nil]
    rw [hq, lastCap_of_le hle]
  | cons m rest ih =>
    intro st q hq hle
    simp only [enqueueAll, List.map_cons]
    have hq1 := store_offline_queue now st uid m
    rw [hq] at hq1
    simp only [Option.getD_some] at hq1
    have hstep := ih (store_offline_message now st uid m).1 _ hq1 (lastCap_length_le _)
    rw [hstep, lastCap_append]
    congr 2
    rw [List.append_assoc, List.singleton_append]

/-- C7: the offline mailbox is bounded at 50.  A single
`store_offline_message` always leaves the target queue at 50 entries or
fewer, and enqueuing 60 messages for a user with no existing queue
retains exactly the (stamped images of the) most recent 50 of them, in
their original oldest-first order. -/
theorem C7_mailbox_bounded :
    (∀ (now : Nat) (st : ManagerState) (uid : String) (msg : Msg),
      ((alistGet (store_offline_message now st uid msg).1.offline_messages uid).getD []).length
        ≤ 50)
    ∧ (∀ (now : Nat) (uid : String) (st : ManagerState) (msgs : List Msg),
        alistGet st.offline_messages uid = none → msgs.length = 60 →
        alistGet (enqueueAll now uid st msgs).offline_messages uid
          = some ((msgs.map (fun m => alistSet m "stored_at" (.s (toString now)))).drop 10)) := by
  constructor
  · intro now st uid msg
    rw [store_offline_queue]
    simp only [Option.getD_some]
    exact lastCap_length_le _
  · intro now uid st msgs hnone hlen
    cases msgs with
    | nil => simp at hlen
    | cons m rest =>
      simp only [enqueueAll]
      have hq1 := store_offline_queue now st uid m
      rw [hnone] at hq1
      simp only [Option.getD_none, List.nil_append] at hq1
      rw [lastCap_of_le (by simp)] at hq1
      have hstep := enqueueAll_queue now uid rest _ _ hq1 (by simp)
      rw [hstep]
      congr 1
      have hlenL : ([alistSet m "stored_at" (.s (toString now))]
          ++ rest.map (fun m => alistSet m "stored_at" (.s (toString now)))).length = 60 := by
        simp only [List.length_append, List.length_map, List.length_singleton]
        simp only [List.length_cons] at hlen
        omega
      unfold lastCap
      rw [hlenL, List.singleton_append]
      simp [List.map_cons]

/-- C7 witness: 60 concrete messages enqueued into an empty mailbox. -/
theorem C7_witness :
    alistGet emptyState.offline_messages "d" = none
    ∧ (List.replicate 60 ([("k", JVal.null)] : Msg)).length = 60
    ∧ alistGet (enqueueAll 5 "d" emptyState
          (List.replicate 60 [("k", JVal.null)])).offline_messages "d"
        = some (((List.replicate 60 ([("k", JVal.null)] : Msg)).map
            (fun m => alistSet m "stored_at" (.s (toString 5)))).drop 10) :=
  ⟨rfl, by simp, C7_mailbox_bounded.2 5 "d" emptyState _ rfl (by simp)⟩

/-- C8: the claim that a delivery failure during a room broadcast never
aborts the rest of the broadcast is contradicted by the code.  With
users `a` (socket 10, broken) and `b` (socket 11) in room `r`, a
`cursor_update` broadcast from `b` prunes `a`'s connection; the cascaded
room leave mutates the member set being iterated, so the iteration
raises (the error flag) and `b` never receives the cursor envelope — the
only delivered message is the `user_left` notification sent to `b`
during the prune. -/
theorem C8_prune_aborts_broadcast :
    (broadcast_cursor_position 12 (fun w => w == 10) 7 c8State (some "r") "b" (.arb 0)).map
        (fun r => (r.2.1, r.2.2))
      = some ([(11, userLeftMsg "a" 7)], true) := rfl

/-- C9: processing an inbound `ping` replies `pong` but leaves the
manager state — in particular the connection's `last_activity`, still 0
while the clock reads 99 — completely unchanged: the read loop never
touches `connection_metadata` on any inbound message. -/
theorem C9_ping_leaves_last_activity :
    handleMessage 12 noFail 99 c9State 10 "a" (some "r")
        (.msg [("type", .s "ping"), ("timestamp", .arb 3)])
      = some (c9State, [(10, pongMsg (some (.arb 3)))], true)
    ∧ (alistGet c9State.connection_metadata 10).map ConnMeta.last_activity = some 0 :=
  ⟨rfl, rfl⟩

/-- C1 counterexample: with the empty-string user as sender, Python
truthiness disables the `exclude_user` check, so the sender's own socket
(number 0) receives its own `cursor_update` broadcast, contradicting "A
itself never receives its own broadcast" for every user A. -/
theorem C1_counterexample :
    (broadcast_cursor_position 12 noFail 7 c1State (some "r") "" (.arb 0)).map (fun r => r.2.1)
      = some [(0, cursorMsg (some "r") "" (.arb 0) 7)] := rfl

/-- C3 counterexample: an envelope of unrecognized type `bogus_type`
produces no reply at all — the dispatch chain has no `else` branch — so
no `error` envelope is sent (the event trace is empty), while the read
loop does continue. -/
theorem C3_counterexample :
    handleMessage 12 noFail 99 c3State 10 "a" none (.msg [("type", .s "bogus_type")])
      = some (c3State, [], true) := rfl

/-- C4 counterexample: user `u`, a member of room `r1`, joins room `r2`;
afterwards `u` is a member of both rooms — `join_project_room` never
removes the prior membership. -/
theorem C4_counterexample :
    (join_project_room 12 noFail 7 c4State "u" "r2").map (fun r => r.1.project_rooms)
      = some [("r1", ["u"]), ("r2", ["u"])] := rfl

/-- C5 counterexample: user `u` has two live sockets whose metadata both
record room `r`; disconnecting only socket 1 still removes `u` from room
`r` (the room entry disappears) even though `u` remains online through
socket 2 — the cascade is not conditioned on the user having no
remaining connections. -/
theorem C5_counterexample :
    (disconnect 12 noFail 7 c5State 1).map
        (fun r => (is_user_online r.1 "u", alistGet r.1.project_rooms "r"))
      = some (true, none) := rfl

theorem disconnect_unknown_noop (fuel : Nat) (fails : WS → Bool) (now : Nat)
    (st : ManagerState) (ws : WS) (hm : alistGet st.connection_metadata ws = none) :
    disconnect (fuel + 1) fails now st ws = some (st, [], false) := by
  simp only [disconnect, hm]

theorem disconnect_noFail_extra {fuel now : Nat} {st : ManagerState} {ws : WS}
    {res : ManagerState × List Event × Bool}
    (h : disconnect fuel noFail now st ws = some res) :
    alistGet res.1.connection_metadata ws = none
    ∧ (∀ (meta : ConnMeta) (p : String), alistGet st.connection_metadata ws = some meta →
        meta.project_id = some p → p ≠ "" →
        ∀ ms, alistGet res.1.project_rooms p = some ms → meta.user_id ∉ ms) := by
  match fuel with
  | 0 => simp [disconnect] at h
  | fuel + 1 =>
    cases hmeta : alistGet st.connection_metadata ws with
    | none =>
      simp only [disconnect, hmeta] at h
      cases h
      refine ⟨hmeta, ?_⟩
      intro meta p hm
      simp at hm
    | some meta =>
      obtain ⟨muid, mpid, mca, mla⟩ := meta
      cases mpid with
      | none =>
        simp only [disconnect, hmeta] at h
        have hfin : ∀ (st1 : ManagerState),
            some ({ st1 with connection_metadata := alistDel st1.connection_metadata ws },
              ([] : List Event), false) = some res →
            alistGet res.1.connection_metadata ws = none
            ∧ (∀ (meta : ConnMeta) (p : String),
                some (⟨muid, none, mca, mla⟩ : ConnMeta) = some meta →
                meta.project_id = some p → p ≠ "" →
                ∀ ms, alistGet res.1.project_rooms p = some ms → meta.user_id ∉ ms) := by
          intro st1 hh
          cases hh
          refine ⟨alistGet_del_self _ _, ?_⟩
          intro meta p hm hpid
          cases hm
          simp at hpid
        cases hac : alistGet st.active_connections muid with
        | none =>
          rw [hac] at h
          exact hfin st h
        | some conns =>
          rw [hac] at h
          by_cases hemp : setDiscard conns ws = []
          · simp only [if_pos hemp] at h
            exact hfin { st with active_connections := alistDel st.active_connections muid } h
          · simp only [if_neg hemp] at h
            exact hfin
              { st with active_connections :=
                  alistSet st.active_connections muid (setDiscard conns ws) } h
      | some p =>
        by_cases hp0 : p = ""
        · subst hp0
          simp only [disconnect, hmeta] at h
          have hfin : ∀ (st1 : ManagerState),
              some ({ st1 with connection_metadata := alistDel st1.connection_metadata ws },
                ([] : List Event), false) = some res →
              alistGet res.1.connection_metadata ws = none
              ∧ (∀ (meta : ConnMeta) (p : String),
                  some (⟨muid, some "", mca, mla⟩ : ConnMeta) = some meta →
                  meta.project_id = some p → p ≠ "" →
                  ∀ ms, alistGet res.1.project_rooms p = some ms → meta.user_id ∉ ms) := by
            intro st1 hh
            cases hh
            refine ⟨alistGet_del_self _ _, ?_⟩
            intro meta p' hm hpid hp'
            cases hm
            simp only at hpid
            cases hpid
            exact absurd rfl hp'
          cases hac : alistGet st.active_connections muid with
          | none =>
            rw [hac] at h
            exact hfin st h
          | some conns =>
            rw [hac] at h
            by_cases hemp : setDiscard conns ws = []
            · simp only [if_pos hemp] at h
              exact hfin { st with active_connections := alistDel st.active_connections muid } h
            · simp only [if_neg hemp] at h
              exact hfin
                { st with active_connections :=
                    alistSet st.active_connections muid (setDiscard conns ws) } h
        · simp only [disconnect, hmeta, if_neg hp0] at h
          have hfin : ∀ (st1 : ManagerState),
              (match leave_project_room fuel noFail now st1 muid p with
                | none => none
                | some (st2, evs, err) =>
                  if err then some (st2, evs, true)
                  else
                    some ({ st2 with
                              connection_metadata := alistDel st2.connection_metadata ws },
                          evs, false)) = some res →
              alistGet res.1.connection_metadata ws = none
              ∧ (∀ (meta : ConnMeta) (p' : String),
                  some (⟨muid, some p, mca, mla⟩ : ConnMeta) = some meta →
                  meta.project_id = some p' → p' ≠ "" →
                  ∀ ms, alistGet res.1.project_rooms p' = some ms → meta.user_id ∉ ms) := by
            intro st1 hh
            rcases hlv : leave_project_room fuel noFail now st1 muid p with _ | ⟨st2, evs, err⟩
            · rw [hlv] at hh
              simp at hh
            · rw [hlv] at hh
              obtain ⟨hl1, _, _, _, hl5⟩ := leave_noFail hlv
              simp only at hl1 hl5
              subst hl1
              simp only [Bool.false_eq_true, if_false] at hh
              cases hh
              refine ⟨alistGet_del_self _ _, ?_⟩
              intro meta p' hm hpid hp'
              cases hm
              simp only at hpid
              cases hpid
              intro ms hms
              exact hl5 ms hms
          cases hac : alistGet st.active_connections muid with
          | none =>
            rw [hac] at h
            exact hfin st h
          | some conns =>
            rw [hac] at h
            by_cases hemp : setDiscard conns ws = []
            · simp only [if_pos hemp] at h
              exact hfin { st with active_connections := alistDel st.active_connections muid } h
            · simp only [if_neg hemp] at h
              exact hfin
                { st with active_connections :=
                    alistSet st.active_connections muid (setDiscard conns ws) } h

/-- C5 (amended): disconnect is idempotent — on a connection with no
metadata entry it is an exact no-op signalling no error, and a completed
disconnect removes the metadata entry, making a second call that no-op.
The cascade to a Room Registry leave, however, fires exactly when the
disconnected connection's stored metadata carries a truthy project id —
regardless of whether the user retains other live connections — and it
removes the user from that room. -/
theorem C5_disconnect_idempotent_cascade :
    (∀ (fuel : Nat) (fails : WS → Bool) (now : Nat) (st : ManagerState) (ws : WS),
      alistGet st.connection_metadata ws = none →
      disconnect (fuel + 1) fails now st ws = some (st, [], false))
    ∧ (∀ (fuel now : Nat) (st : ManagerState) (ws : WS)
        (res : ManagerState × List Event × Bool),
        disconnect fuel noFail now st ws = some res →
        alistGet res.1.connection_metadata ws = none)
    ∧ (∀ (fuel now : Nat) (st : ManagerState) (ws : WS) (meta : ConnMeta) (p : String)
        (res : ManagerState × List Event × Bool),
        disconnect fuel noFail now st ws = some res →
        alistGet st.connection_metadata ws = some meta →
        meta.project_id = some p → p ≠ "" →
        ∀ ms, alistGet res.1.project_rooms p = some ms → meta.user_id ∉ ms) :=
  ⟨fun fuel fails now st ws hm => disconnect_unknown_noop fuel fails now st ws hm,
   fun _ _ _ _ _ h => (disconnect_noFail_extra h).1,
   fun _ _ _ _ meta p _ h hm hpid hp ms hms =>
     (disconnect_noFail_extra h).2 meta p hm hpid hp ms hms⟩

/-- C5 witness: the no-op on an unknown socket, the metadata removal,
and the cascade (user `u` gone from room `r` despite socket 2 staying
live) at the concrete two-user scenario. -/
theorem C5_witness :
    disconnect 13 noFail 7 c5wState 9 = some (c5wState, [], false)
    ∧ alistGet ((disconnect 12 noFail 7 c5wState 1).getD
        (c5wState, [], true)).1.connection_metadata 1 = none
    ∧ "u" ∉ (["v"] : List String) := by
  refine ⟨C5_disconnect_idempotent_cascade.1 12 noFail 7 c5wState 9 rfl, ?_, ?_⟩
  · exact C5_disconnect_idempotent_cascade.2.1 12 7 c5wState 1
      ((disconnect 12 noFail 7 c5wState 1).getD (c5wState, [], true)) rfl
  · exact C5_disconnect_idempotent_cascade.2.2 12 7 c5wState 1 ⟨"u", some "r", 0, 0⟩ "r"
      ((disconnect 12 noFail 7 c5wState 1).getD (c5wState, [], true)) rfl rfl rfl
      (by decide) ["v"] rfl

/-- C4 (amended): joining a room adds the user to the new room's member
set but leaves the prior room's membership intact — after
`join_project_room(U, R2)` the user is a member of both rooms (the
source never removes a prior membership). -/
theorem C4_join_keeps_prior_membership
    (fuel now : Nat) (st : ManagerState) (u r1 r2 : String) (ms1 : List String)
    (res : ManagerState × List Event × Bool)
    (h : join_project_room fuel noFail now st u r2 = some res)
    (hmem : alistGet st.project_rooms r1 = some ms1) (hu : u ∈ ms1) (hne : r1 ≠ r2) :
    (∃ ms1', alistGet res.1.project_rooms r1 = some ms1' ∧ u ∈ ms1')
    ∧ (∃ ms2, alistGet res.1.project_rooms r2 = some ms2 ∧ u ∈ ms2) := by
  obtain ⟨_, _, _, hrooms⟩ := join_noFail h
  constructor
  · refine ⟨ms1, ?_, hu⟩
    rw [hrooms, alistGet_set_ne _ _ _ _ (fun he => hne he.symm), hmem]
  · refine ⟨setAdd ((alistGet st.project_rooms r2).getD []) u, ?_, ?_⟩
    · rw [hrooms, alistGet_set_self]
    · exact mem_setAdd.mpr (Or.inr rfl)

/-- C4 witness: user `u`, a member of room `r1`, joins `r2` in the
concrete scenario; both memberships hold afterwards. -/
theorem C4_witness :
    (∃ ms1', alistGet ((join_project_room 12 noFail 7 c4State "u" "r2").getD
        (c4State, [], true)).1.project_rooms "r1" = some ms1' ∧ "u" ∈ ms1')
    ∧ (∃ ms2, alistGet ((join_project_room 12 noFail 7 c4State "u" "r2").getD
        (c4State, [], true)).1.project_rooms "r2" = some ms2 ∧ "u" ∈ ms2) :=
  C4_join_keeps_prior_membership 12 7 c4State "u" "r1" "r2" ["u"]
    ((join_project_room 12 noFail 7 c4State "u" "r2").getD (c4State, [], true))
    rfl rfl (by simp) (by decide)

/-- C3 (amended): an inbound envelope that decodes as JSON but whose
type is not one of the recognized values (`cursor_update`,
`wireframe_update`, `join_project`, `leave_project`, `ping`) is silently
ignored: the dispatch chain has no else branch, so no error reply —
indeed no event at all — is produced, the state is untouched, and the
read loop continues.  Only a frame that fails JSON decoding (or a
handler that raises) is answered with an `error` envelope. -/
theorem C3_unknown_type_silently_ignored
    (fuel now : Nat) (st : ManagerState) (ws : WS) (uid : String) (pidQ : Option String)
    (m : Msg) (res : ManagerState × List Event × Bool)
    (h : handleMessage fuel noFail now st ws uid pidQ (.msg m) = some res)
    (hunk : ∀ t, alistGet m "type" = some (.s t) →
      t ∉ ["cursor_update", "wireframe_update", "join_project", "leave_project", "ping"]) :
    res = (st, [], true) := by
  match fuel with
  | 0 => simp [handleMessage] at h
  | fuel + 1 =>
    simp only [handleMessage] at h
    split at h
    all_goals first
      | (cases h; rfl)
      | (rename_i heq; exact absurd (by simp) (hunk _ heq))

/-- C3 witness: a well-formed envelope of type `made_up` handled on a
live connection produces no reply and the loop continues. -/
theorem C3_witness :
    ((handleMessage 12 noFail 99 c3State 10 "a" none
        (.msg [("type", .s "made_up"), ("payload", .arb 4)])).getD (c3State, [], false)
      = (c3State, [], true)) := by
  have hr := C3_unknown_type_silently_ignored 12 99 c3State 10 "a" none
    [("type", .s "made_up"), ("payload", .arb 4)]
    ((handleMessage 12 noFail 99 c3State 10 "a" none
        (.msg [("type", .s "made_up"), ("payload", .arb 4)])).getD (c3State, [], false))
    rfl (by intro t ht; simp [alistGet] at ht; rw [← ht]; decide)
  exact hr

/-- C6: offline store-and-forward round trip.  Routing a message to a
user with no live connection enqueues it (send loop delivers nothing;
the stamped message is appended to the user's queue, subject to the
50-entry cap); and a user reconnecting through `connect` receives
exactly the queued messages — each delivered once, in order, on the
reconnecting socket, wrapped in an `offline_message` envelope — after
which the mailbox entry is gone. -/
theorem C6_offline_roundtrip :
    (∀ (fuel now : Nat) (st : ManagerState) (uid : String) (msg : Msg)
        (res : ManagerState × Msg × List Event × Bool),
      send_personal_message fuel noFail now st uid msg = some res →
      alistGet st.active_connections uid = none →
      res.2.2.1 = []
      ∧ alistGet res.1.offline_messages uid
          = some (lastCap ((alistGet st.offline_messages uid).getD []
              ++ [alistSet msg "stored_at" (.s (toString now))])))
    ∧ (∀ (fuel now : Nat) (st : ManagerState) (ws : WS) (uid : String) (q : List Msg)
        (res : ManagerState × List Event × Bool),
      connect fuel noFail now st ws uid none = some res →
      alistGet st.active_connections uid = none →
      alistGet st.offline_messages uid = some q →
      res.2.1 = q.map (fun m => (ws, offlineWrap m))
      ∧ alistGet res.1.offline_messages uid = none) := by
  constructor
  · intro fuel now st uid msg res h hoff
    match fuel with
    | 0 => simp [send_personal_message] at h
    | fuel + 1 =>
      rw [spm_noFail_offline hoff] at h
      cases h
      exact ⟨rfl, store_offline_queue now st uid msg⟩
  · intro fuel now st ws uid q res h hoff hq
    match fuel with
    | 0 => simp [connect] at h
    | fuel + 1 =>
      simp only [connect] at h
      have hconns : setAdd ((alistGet st.active_connections uid).getD []) ws = [ws] := by
        rw [hoff]; simp [setAdd]
      have hst2 : alistGet
          (alistSet st.active_connections uid
            (setAdd ((alistGet st.active_connections uid).getD []) ws)) uid
          = some [ws] := by
        rw [alistGet_set_self, hconns]
      rcases hso : send_offline_messages fuel noFail now
          { st with
            active_connections := alistSet st.active_connections uid
              (setAdd ((alistGet st.active_connections uid).getD []) ws),
            connection_metadata := alistSet st.connection_metadata ws ⟨uid, none, now, now⟩ }
          uid with _ | ⟨st4, evs4, err4⟩
      · rw [hso] at h
        simp at h
      · rw [hso] at h
        cases h
        have hev := send_offline_noFail_single hso hst2
        have hrest := send_offline_noFail_online hso ⟨_, hst2⟩
        simp only at hev
        refine ⟨?_, ?_⟩
        · simp only [List.nil_append]
          rw [hev]
          have : alistGet st.offline_messages uid = some q := hq
          rw [this]
          rfl
        · exact hrest.2.2.2.1

/-- C6 witness: user `d` offline with two queued messages reconnects on
socket 3 and receives exactly the two wrapped messages; the mailbox
entry is gone.  The enqueue side is witnessed by storing one message for
the offline user `d` in the empty state. -/
theorem C6_witness :
    ((send_personal_message 12 noFail 5 emptyState "d" [("k", .arb 9)]).getD
          (emptyState, [], [], true)).2.2.1 = []
    ∧ alistGet ((send_personal_message 12 noFail 5 emptyState "d" [("k", .arb 9)]).getD
          (emptyState, [], [], true)).1.offline_messages "d"
        = some (lastCap ((alistGet emptyState.offline_messages "d").getD []
            ++ [alistSet [("k", .arb 9)] "stored_at" (.s (toString 5))]))
    ∧ ((connect 12 noFail 5 c6State 3 "d" none).getD (c6State, [], true)).2.1
        = ([[("k", .arb 1)], [("k", .arb 2)]] : List Msg).map (fun m => (3, offlineWrap m))
    ∧ alistGet ((connect 12 noFail 5 c6State 3 "d" none).getD
          (c6State, [], true)).1.offline_messages "d" = none := by
  have hA := C6_offline_roundtrip.1 12 5 emptyState "d" [("k", .arb 9)]
    ((send_personal_message 12 noFail 5 emptyState "d" [("k", .arb 9)]).getD
      (emptyState, [], [], true)) rfl rfl
  have hB := C6_offline_roundtrip.2 12 5 c6State 3 "d" [[("k", .arb 1)], [("k", .arb 2)]]
    ((connect 12 noFail 5 c6State 3 "d" none).getD (c6State, [], true)) rfl rfl rfl
  exact ⟨hA.1, hA.2, hB.1, hB.2⟩

theorem runRegOps_inv (fuel now : Nat) :
    ∀ (ops : List RegOp) (st st' : ManagerState),
      runRegOps fuel noFail now st ops = some st' → NoEmptyAC st → NoEmptyAC st' := by
  intro ops
  induction ops with
  | nil =>
    intro st st' h hne
    simp only [runRegOps] at h
    cases h
    exact hne
  | cons op rest ih =>
    intro st st' h hne
    cases op with
    | conn ws uid pid =>
      simp only [runRegOps] at h
      rcases hc : connect fuel noFail now st ws uid pid with _ | ⟨st1, evs, err⟩
      · rw [hc] at h
        simp at h
      · rw [hc] at h
        refine ih st1 st' h ?_
        obtain ⟨_, hact, _, _⟩ := connect_noFail hc
        simp only at hact
        intro p hp
        rw [hact] at hp
        rcases mem_alistSet_cases hp with hp | hp
        · exact hne p hp
        · rw [hp]
          exact setAdd_ne_nil _ _
    | disc ws =>
      simp only [runRegOps] at h
      rcases hd : disconnect fuel noFail now st ws with _ | ⟨st1, evs, err⟩
      · rw [hd] at h
        simp at h
      · rw [hd] at h
        exact ih st1 st' h ((disconnect_noFail hd).2.2.2 hne)

/-- C2: over any sequence of Connection Registry `connect` /
`disconnect` operations (run with the no-failure send oracle), the
presence invariant holds: no user id in the registry maps to an empty
connection set, and `is_user_online` answers true exactly for the users
whose live-connection set is non-empty. -/
theorem C2_presence_invariant
    (fuel now : Nat) (ops : List RegOp) (st st' : ManagerState)
    (hrun : runRegOps fuel noFail now st ops = some st') (hinv : NoEmptyAC st) :
    NoEmptyAC st'
    ∧ (∀ u, is_user_online st' u = true
        ↔ ∃ c, alistGet st'.active_connections u = some c ∧ c ≠ []) := by
  have hne := runRegOps_inv fuel now ops st st' hrun hinv
  refine ⟨hne, ?_⟩
  intro u
  constructor
  · intro hon
    obtain ⟨c, hc⟩ := alistMem_iff.mp hon
    exact ⟨c, hc, hne (u, c) (alistGet_mem hc)⟩
  · rintro ⟨c, hc, _⟩
    exact alistMem_iff.mpr ⟨c, hc⟩

/-- C2 witness: user `u` connects twice (sockets 1 and 2) and socket 1
disconnects; the invariant and the online characterization hold at the
resulting state. -/
theorem C2_witness :
    NoEmptyAC ((runRegOps 12 noFail 0 emptyState
        [RegOp.conn 1 "u" none, RegOp.conn 2 "u" none, RegOp.disc 1]).getD emptyState)
    ∧ (∀ u, is_user_online ((runRegOps 12 noFail 0 emptyState
          [RegOp.conn 1 "u" none, RegOp.conn 2 "u" none, RegOp.disc 1]).getD emptyState) u
            = true
        ↔ ∃ c, alistGet ((runRegOps 12 noFail 0 emptyState
            [RegOp.conn 1 "u" none, RegOp.conn 2 "u" none,
              RegOp.disc 1]).getD emptyState).active_connections u = some c ∧ c ≠ []) :=
  C2_presence_invariant 12 0 [RegOp.conn 1 "u" none, RegOp.conn 2 "u" none, RegOp.disc 1]
    emptyState
    ((runRegOps 12 noFail 0 emptyState
        [RegOp.conn 1 "u" none, RegOp.conn 2 "u" none, RegOp.disc 1]).getD emptyState)
    rfl (fun p hp => absurd hp (List.not_mem_nil p))

theorem offInv_preserved_frame {st st1 : ManagerState}
    (hact : st1.active_connections = st.active_connections)
    (hoff : ∀ v, (∃ c, alistGet st.active_connections v = some c) →
        alistGet st1.offline_messages v = alistGet st.offline_messages v)
    (hinv : OffInv st) : OffInv st1 := by
  intro p hp
  rw [hact] at hp
  obtain ⟨v', hv'⟩ := alistGet_isSome_of_mem hp
  have h1 := hinv p hp
  unfold alistMem at h1 ⊢
  rw [hoff p.1 ⟨v', hv'⟩]
  exact h1

theorem offInv_preserved_connect {fuel now : Nat} {st : ManagerState} {ws : WS}
    {uid : String} {pid : Option String} {res : ManagerState × List Event × Bool}
    (hc : connect fuel noFail now st ws uid pid = some res)
    (hinv : OffInv st) : OffInv res.1 := by
  obtain ⟨_, hact, hme, hother⟩ := connect_noFail hc
  intro p hp
  rw [hact] at hp
  by_cases hpu : p.1 = uid
  · unfold alistMem
    rw [hpu, hme]
    rfl
  · rcases mem_alistSet_cases hp with hp | hp
    · obtain ⟨v', hv'⟩ := alistGet_isSome_of_mem hp
      have h1 := hinv p hp
      unfold alistMem at h1 ⊢
      rw [hother p.1 hpu ⟨v', hv'⟩]
      exact h1
    · exact absurd (congrArg Prod.fst hp) hpu

theorem offInv_preserved_disconnect {fuel now : Nat} {st : ManagerState} {ws : WS}
    {res : ManagerState × List Event × Bool}
    (hd : disconnect fuel noFail now st ws = some res)
    (hinv : OffInv st) : OffInv res.1 := by
  obtain ⟨_, hact, hoff, _⟩ := disconnect_noFail hd
  intro p hp
  obtain ⟨v', hv'⟩ := alistGet_isSome_of_mem hp
  obtain ⟨c, hcget⟩ := hact p.1 v' hv'
  have h1 := hinv (p.1, c) (alistGet_mem hcget)
  unfold alistMem at h1 ⊢
  rw [hoff p.1 ⟨v', hv'⟩]
  exact h1

theorem runPubOps_inv (fuel now : Nat) :
    ∀ (ops : List PubOp) (st st' : ManagerState),
      runPubOps fuel noFail now st ops = some st' → OffInv st → OffInv st' := by
  intro ops
  induction ops with
  | nil =>
    intro st st' h hinv
    simp only [runPubOps] at h
    cases h
    exact hinv
  | cons op rest ih =>
    intro st st' h hinv
    cases op with
    | conn ws uid pid =>
      simp only [runPubOps] at h
      rcases hc : connect fuel noFail now st ws uid pid with _ | ⟨st1, evs, err⟩
      · rw [hc] at h
        simp at h
      · rw [hc] at h
        exact ih st1 st' h (offInv_preserved_connect hc hinv)
    | disc ws =>
      simp only [runPubOps] at h
      rcases hd : disconnect fuel noFail now st ws with _ | ⟨st1, evs, err⟩
      · rw [hd] at h
        simp at h
      · rw [hd] at h
        exact ih st1 st' h (offInv_preserved_disconnect hd hinv)
    | join uid pid =>
      simp only [runPubOps] at h
      rcases hj : join_project_room fuel noFail now st uid pid with _ | ⟨st1, evs, err⟩
      · rw [hj] at h
        simp at h
      · rw [hj] at h
        obtain ⟨_, hact, hoff, _⟩ := join_noFail hj
        exact ih st1 st' h (offInv_preserved_frame hact hoff hinv)
    | leave uid pid =>
      simp only [runPubOps] at h
      rcases hl : leave_project_room fuel noFail now st uid pid with _ | ⟨st1, evs, err⟩
      · rw [hl] at h
        simp at h
      · rw [hl] at h
        obtain ⟨_, hact, hoff, _, _⟩ := leave_noFail hl
        exact ih st1 st' h (offInv_preserved_frame hact hoff hinv)
    | send uid msg =>
      simp only [runPubOps] at h
      rcases hs : send_personal_message fuel noFail now st uid msg
          with _ | ⟨st1, msg1, evs, err⟩
      · rw [hs] at h
        simp at h
      · rw [hs] at h
        obtain ⟨_, hact, _, hoffne, honline, _, _, _, _⟩ := spm_noFail_props hs
        refine ih st1 st' h (offInv_preserved_frame hact ?_ hinv)
        intro v hv
        by_cases hvu : v = uid
        · subst hvu
          rw [(honline hv).1]
        · exact hoffne v hvu
    | cursor pid uid cd =>
      simp only [runPubOps] at h
      rcases hb : broadcast_cursor_position fuel noFail now st pid uid cd
          with _ | ⟨st1, evs, err⟩
      · rw [hb] at h
        simp at h
      · rw [hb] at h
        have hbt : broadcast_to_project (fuel - 1) noFail now st pid
            (cursorMsg pid uid cd now) (some uid) = some (st1, evs, err) := by
          match fuel, hb with
          | fuel + 1, hb => exact hb
        obtain ⟨_, hact, _, hoff⟩ := btp_noFail hbt
        exact ih st1 st' h (offInv_preserved_frame hact hoff hinv)
    | wireframe pid wd uid =>
      simp only [runPubOps] at h
      rcases hb : broadcast_wireframe_update fuel noFail now st pid wd uid
          with _ | ⟨st1, evs, err⟩
      · rw [hb] at h
        simp at h
      · rw [hb] at h
        have hbt : broadcast_to_project (fuel - 1) noFail now st pid
            (wireframeMsg pid wd uid now) (some uid) = some (st1, evs, err) := by
          match fuel, hb with
          | fuel + 1, hb => exact hb
        obtain ⟨_, hact, _, hoff⟩ := btp_noFail hbt
        exact ih st1 st' h (offInv_preserved_frame hact hoff hinv)

/-- C10: a user with at least one live connection never has a pending
offline mailbox entry.  Starting from any state satisfying the
exclusivity invariant (in particular the empty initial state), any
sequence of public manager operations run with the no-failure send
oracle preserves it: every user id present in `active_connections` is
absent from `offline_messages` — enqueueing only happens for users with
no live connection, and `connect` flushes and deletes the reconnecting
user's queue. -/
theorem C10_online_excludes_mailbox
    (fuel now : Nat) (ops : List PubOp) (st st' : ManagerState)
    (hrun : runPubOps fuel noFail now st ops = some st') (hinv : OffInv st) :
    OffInv st' :=
  runPubOps_inv fuel now ops st st' hrun hinv

set_option maxHeartbeats 1600000 in
/-- C10 witness: a message is routed to the offline user `d` (creating a
mailbox entry), `d` then connects (flushing it), another user `u`
connects and the message sender disconnects; the invariant holds at the
result. -/
theorem C10_witness :
    OffInv ((runPubOps 12 noFail 3 emptyState
        [PubOp.conn 1 "u" (some "r"), PubOp.send "d" [("k", .arb 1)],
          PubOp.conn 2 "d" (some "r"), PubOp.cursor (some "r") "u" (.arb 2),
          PubOp.disc 1]).getD emptyState) :=
  C10_online_excludes_mailbox 12 3
    [PubOp.conn 1 "u" (some "r"), PubOp.send "d" [("k", .arb 1)],
      PubOp.conn 2 "d" (some "r"), PubOp.cursor (some "r") "u" (.arb 2), PubOp.disc 1]
    emptyState
    ((runPubOps 12 noFail 3 emptyState
        [PubOp.conn 1 "u" (some "r"), PubOp.send "d" [("k", .arb 1)],
          PubOp.conn 2 "d" (some "r"), PubOp.cursor (some "r") "u" (.arb 2),
          PubOp.disc 1]).getD emptyState)
    rfl (fun p hp => absurd hp (List.not_mem_nil p))

theorem skipB_false_of_ne {A B : String} (h : B ≠ A) : skipB (some A) B = false := by
  simp [skipB, h]

theorem ne_of_skipB_false {A B : String} (hA : A ≠ "") (h : skipB (some A) B = false) :
    B ≠ A := by
  simp [skipB, hA] at h
  exact h

/-- C1 (amended): for every sender with a non-empty user id, a
`cursor_update` broadcast into the sender's room reaches exactly the
other members: every other member's every live socket receives an
envelope carrying the cursor fields, every other offline member has such
an envelope appended to their mailbox, every delivered event belongs to
a live socket of some other member, and no socket of the sender receives
anything.  (The empty-string sender is excluded: Python truthiness
disables the exclusion check for it, see the counterexample.) -/
theorem C1_broadcast_excludes_sender
    (fuel now : Nat) (st : ManagerState) (R A : String) (data : JVal)
    (M : List String) (res : ManagerState × List Event × Bool)
    (hrun : broadcast_cursor_position fuel noFail now st (some R) A data = some res)
    (hroom : alistGet st.project_rooms R = some M)
    (hA : A ≠ "") (hAmem : A ∈ M) (hnd : M.Nodup)
    (hdisj : ∀ p ∈ st.active_connections, ∀ q ∈ st.active_connections,
        p.1 ≠ q.1 → ∀ w ∈ p.2, w ∉ q.2) :
    res.2.2 = false
    ∧ (∀ B ∈ M, B ≠ A → ∀ conns, alistGet st.active_connections B = some conns →
        ∀ w ∈ conns, ∃ m', (w, m') ∈ res.2.1
          ∧ alistGet m' "type" = some (.s "cursor_update")
          ∧ alistGet m' "user_id" = some (.s A)
          ∧ alistGet m' "cursor_data" = some data)
    ∧ (∀ B ∈ M, B ≠ A → alistGet st.active_connections B = none →
        ∃ m', alistGet m' "type" = some (.s "cursor_update")
          ∧ alistGet m' "user_id" = some (.s A)
          ∧ alistGet m' "cursor_data" = some data
          ∧ alistGet res.1.offline_messages B
              = some (lastCap ((alistGet st.offline_messages B).getD [] ++ [m'])))
    ∧ (∀ w m', (w, m') ∈ res.2.1 →
        ∃ B, B ∈ M ∧ B ≠ A
          ∧ ∃ conns, alistGet st.active_connections B = some conns ∧ w ∈ conns)
    ∧ (∀ conns, alistGet st.active_connections A = some conns →
        ∀ w ∈ conns, ∀ m', (w, m') ∉ res.2.1) := by
  have hfields : ∀ m', SameExceptStored m' (cursorMsg (some R) A data now) →
      alistGet m' "type" = some (.s "cursor_update")
      ∧ alistGet m' "user_id" = some (.s A)
      ∧ alistGet m' "cursor_data" = some data := by
    intro m' hs
    refine ⟨?_, ?_, ?_⟩
    · rw [hs "type" (by decide)]
      rfl
    · rw [hs "user_id" (by decide)]
      rfl
    · rw [hs "cursor_data" (by decide)]
      rfl
  match fuel with
  | 0 => simp [broadcast_cursor_position] at hrun
  | 1 => simp [broadcast_cursor_position, broadcast_to_project] at hrun
  | fuel + 2 =>
    rw [broadcast_cursor_position] at hrun
    simp only [broadcast_to_project, hroom] at hrun
    have hlen : M.length = ((alistGet st.project_rooms R).getD []).length := by
      rw [hroom]; rfl
    rw [hlen] at hrun
    obtain ⟨g1, g2, g3, g4, g5, g6, g7, g8⟩ :=
      broadcastLoop_noFail now R (some A) M fuel st (cursorMsg (some R) A data now) res hrun
    refine ⟨g1, ?_, ?_, ?_, ?_⟩
    · intro B hB hBA conns hc w hw
      obtain ⟨m', hm'⟩ := g7 B hB (skipB_false_of_ne hBA) conns hc w hw
      obtain ⟨hsame, _⟩ := g6 w m' hm'
      exact ⟨m', hm', hfields m' hsame⟩
    · intro B hB hBA hnone
      obtain ⟨m', hsame, hq⟩ := g8 hnd B hB (skipB_false_of_ne hBA) hnone
      obtain ⟨hf1, hf2, hf3⟩ := hfields m' hsame
      exact ⟨m', hf1, hf2, hf3, hq⟩
    · intro w m' hm'
      obtain ⟨_, B, hB, hskip, conns, hc, hw⟩ := g6 w m' hm'
      exact ⟨B, hB, ne_of_skipB_false hA hskip, conns, hc, hw⟩
    · intro conns hcA w hw m' hm'
      obtain ⟨_, B, hB, hskip, connsB, hcB, hwB⟩ := g6 w m' hm'
      exact hdisj (B, connsB) (alistGet_mem hcB) (A, conns) (alistGet_mem hcA)
        (ne_of_skipB_false hA hskip) w hwB hw

set_option maxHeartbeats 800000 in
/-- C1 witness: sender `a` (socket 1), online member `b` (socket 2) and
offline member `c` in room `r`; the amended exclusion property holds at
the concrete broadcast result. -/
theorem C1_witness :
    c1wRun.2.2 = false
    ∧ (∀ B ∈ ["a", "b", "c"], B ≠ "a" →
        ∀ conns, alistGet c1wState.active_connections B = some conns →
        ∀ w ∈ conns, ∃ m', (w, m') ∈ c1wRun.2.1
          ∧ alistGet m' "type" = some (.s "cursor_update")
          ∧ alistGet m' "user_id" = some (.s "a")
          ∧ alistGet m' "cursor_data" = some (.arb 0))
    ∧ (∀ B ∈ ["a", "b", "c"], B ≠ "a" → alistGet c1wState.active_connections B = none →
        ∃ m', alistGet m' "type" = some (.s "cursor_update")
          ∧ alistGet m' "user_id" = some (.s "a")
          ∧ alistGet m' "cursor_data" = some (.arb 0)
          ∧ alistGet c1wRun.1.offline_messages B
              = some (lastCap ((alistGet c1wState.offline_messages B).getD [] ++ [m'])))
    ∧ (∀ w m', (w, m') ∈ c1wRun.2.1 →
        ∃ B, B ∈ ["a", "b", "c"] ∧ B ≠ "a"
          ∧ ∃ conns, alistGet c1wState.active_connections B = some conns ∧ w ∈ conns)
    ∧ (∀ conns, alistGet c1wState.active_connections "a" = some conns →
        ∀ w ∈ conns, ∀ m', (w, m') ∉ c1wRun.2.1) :=
  C1_broadcast_excludes_sender 12 7 c1wState "r" "a" (.arb 0) ["a", "b", "c"] c1wRun
    rfl rfl (by decide) (by decide) (by decide) (by decide)
